import Mathlib

/-!
Shallow embedding of the inventory management core (`src/models.rs`,
`src/errors.rs`, `src/storage.rs`, `src/service.rs`) and proofs of the
specified properties of `InventoryService`.

Modelling conventions:
* `u32` values are `Nat`s holding values below `2^32`; the one arithmetic
  operation that can overflow (`product.quantity += quantity` in
  `add_stock`) is modelled with an explicit `% 2^32`.
* `DateTime<Utc>` timestamps are modelled as `Int` instants, preserving
  their total order.
* The `Storage` trait's save side is a function from save calls to an
  optional `StorageError` (`none` = the save succeeded); each operation
  returns, besides its result and the post-state, the list of save calls it
  issued, in order.  The load side only feeds `InventoryService::new`, so
  the loaded collections are explicit arguments there.
* Fresh UUIDs (`Uuid::new_v4`) and clock readings (`Utc::now`) are explicit
  arguments of the operations that use them.
* The `HashMap<String, Product>` catalog is an association list whose keys
  are pairwise distinct in every reachable state (proved below).
-/

namespace StockControl

/-- Type of a stock transaction, from `models.rs` (`TransactionType`). -/
inductive TransactionType where
  | Addition
  | Removal
deriving DecidableEq

/-- A product in the inventory, from `models.rs` (`Product`). -/
structure Product where
  id : String
  sku : String
  name : String
  description : String
  quantity : Nat
  reorder_point : Nat
deriving DecidableEq

/-- A stock movement, from `models.rs` (`Transaction`). -/
structure Transaction where
  id : String
  product_sku : String
  transaction_type : TransactionType
  quantity : Nat
  timestamp : Int
  notes : Option String
deriving DecidableEq

/-- Storage-layer errors, from `errors.rs` (`StorageError`). -/
inductive StorageError where
  | ReadError (msg : String)
  | WriteError (msg : String)
  | ParseError (msg : String)
  | FileNotFound (msg : String)
deriving DecidableEq

/-- Service-layer errors, from `errors.rs` (`ServiceError`). -/
inductive ServiceError where
  | ProductNotFound (sku : String)
  | DuplicateSKU (sku : String)
  | InvalidInput (msg : String)
  | InsufficientStock (sku : String) (requested : Nat) (available : Nat)
  | StorageError (e : StorageError)
deriving DecidableEq

/-- One save request issued to the storage backend (the save half of the
`Storage` trait in `storage.rs`). -/
inductive SaveCall where
  | saveProducts (products : List Product)
  | saveTransactions (transactions : List Transaction)
deriving DecidableEq

/-- The save side of the storage port: `none` means the call succeeded,
`some e` that it failed with error `e`. -/
abbrev Storage := SaveCall → Option StorageError

/-- A storage port whose saves always succeed. -/
def okPort : Storage := fun _ => none

deriving instance DecidableEq for Except

/-- Rust `str::trim().is_empty()`: the string is empty after trimming
whitespace iff every character is whitespace. -/
def trim_is_empty (x : String) : Bool :=
  x.data.all Char.isWhitespace

/-- `2^32`, the modulus of Rust `u32` arithmetic. -/
def u32Mod : Nat := 4294967296

/-- The catalog `HashMap<String, Product>`, as an association list. -/
abbrev Catalog := List (String × Product)

/-- `HashMap::contains_key`. -/
def mapContains (m : Catalog) (k : String) : Bool :=
  m.any fun kp => kp.1 == k

/-- `HashMap::get`. -/
def mapGet (m : Catalog) (k : String) : Option Product :=
  (m.find? fun kp => kp.1 == k).map fun kp => kp.2

/-- `HashMap::insert`: replace the value at an existing key, otherwise add
the binding. -/
def mapInsert (m : Catalog) (k : String) (v : Product) : Catalog :=
  if mapContains m k then m.map fun kp => if kp.1 == k then (kp.1, v) else kp
  else m ++ [(k, v)]

/-- In-place mutation of the value at a key (Rust `get_mut` followed by
writes through the reference). -/
def mapModify (m : Catalog) (k : String) (f : Product → Product) : Catalog :=
  m.map fun kp => if kp.1 == k then (kp.1, f kp.2) else kp

/-- `HashMap::remove` (the service ignores the returned value). -/
def mapRemove (m : Catalog) (k : String) : Catalog :=
  m.filter fun kp => !(kp.1 == k)

/-- `HashMap::values`. -/
def mapValues (m : Catalog) : List Product :=
  m.map fun kp => kp.2

/-- In-memory state of `InventoryService` (`service.rs`): the SKU-keyed
catalog and the insertion-ordered ledger.  The boxed storage backend is
passed to each operation as a `Storage` port argument. -/
structure InventoryService where
  products : Catalog
  transactions : List Transaction
deriving DecidableEq

/-- The state of a service constructed over an empty backing store. -/
def emptyService : InventoryService :=
  { products := [], transactions := [] }

/-- `InventoryService::new`: index the loaded products by SKU (collecting
an iterator of `(p.sku, p)` pairs, later duplicates overwriting earlier
ones) and keep the loaded transactions. -/
def InventoryService.new (loaded_products : List Product)
    (loaded_transactions : List Transaction) : InventoryService :=
  { products := loaded_products.foldl (fun m p => mapInsert m p.sku p) []
    transactions := loaded_transactions }

/-- `InventoryService::persist_products`: ask the port to save all current
products. -/
def persist_products (s : InventoryService) (port : Storage) : Option StorageError :=
  port (SaveCall.saveProducts (mapValues s.products))

/-- `InventoryService::persist_transactions`: ask the port to save the
current ledger. -/
def persist_transactions (s : InventoryService) (port : Storage) : Option StorageError :=
  port (SaveCall.saveTransactions s.transactions)

/-- Shared epilogue of `add_product` and `update_product`: the
`self.persist_products()?` call followed by `Ok(product)`.  On failure the
in-memory mutation (already applied in `s'`) is kept, as in the source. -/
def finishProductsSave (a : Product) (s' : InventoryService) (port : Storage) :
    Except ServiceError Product × InventoryService × List SaveCall :=
  match persist_products s' port with
  | some e => (.error (.StorageError e), s', [SaveCall.saveProducts (mapValues s'.products)])
  | none => (.ok a, s', [SaveCall.saveProducts (mapValues s'.products)])

/-- Shared epilogue of `add_stock`, `remove_stock` and `delete_product`:
`self.persist_products()?; self.persist_transactions()?; Ok(())`.  The
transactions save is only issued when the products save succeeded. -/
def finishBothSaves (s' : InventoryService) (port : Storage) :
    Except ServiceError Unit × InventoryService × List SaveCall :=
  match persist_products s' port with
  | some e => (.error (.StorageError e), s', [SaveCall.saveProducts (mapValues s'.products)])
  | none =>
    match persist_transactions s' port with
    | some e => (.error (.StorageError e), s',
        [SaveCall.saveProducts (mapValues s'.products),
         SaveCall.saveTransactions s'.transactions])
    | none => (.ok (), s',
        [SaveCall.saveProducts (mapValues s'.products),
         SaveCall.saveTransactions s'.transactions])

/-- `InventoryService::add_product`. -/
def add_product (s : InventoryService) (port : Storage)
    (fresh_id sku name description : String)
    (initial_quantity reorder_point : Nat) :
    Except ServiceError Product × InventoryService × List SaveCall :=
  if trim_is_empty sku then
    (.error (.InvalidInput "SKU cannot be empty"), s, [])
  else if trim_is_empty name then
    (.error (.InvalidInput "Name cannot be empty"), s, [])
  else if mapContains s.products sku then
    (.error (.DuplicateSKU sku), s, [])
  else
    let product : Product :=
      { id := fresh_id, sku := sku, name := name, description := description,
        quantity := initial_quantity, reorder_point := reorder_point }
    finishProductsSave product
      { s with products := mapInsert s.products sku product } port

/-- The three `if let Some(..)` field updates of `update_product`,
applied to a product.  `id`, `sku` and `quantity` are untouched. -/
def applyFields (p : Product) (name description : Option String)
    (reorder_point : Option Nat) : Product :=
  let p1 := match name with
    | some n => { p with name := n }
    | none => p
  let p2 := match description with
    | some d => { p1 with description := d }
    | none => p1
  match reorder_point with
  | some r => { p2 with reorder_point := r }
  | none => p2

/-- `InventoryService::update_product`.  The emptiness check on a supplied
name happens before any field is applied. -/
def update_product (s : InventoryService) (port : Storage) (sku : String)
    (name description : Option String) (reorder_point : Option Nat) :
    Except ServiceError Product × InventoryService × List SaveCall :=
  match mapGet s.products sku with
  | none => (.error (.ProductNotFound sku), s, [])
  | some p =>
    if (match name with | some n => trim_is_empty n | none => false) then
      (.error (.InvalidInput "Name cannot be empty"), s, [])
    else
      finishProductsSave (applyFields p name description reorder_point)
        { s with products :=
            mapModify s.products sku fun q => applyFields q name description reorder_point }
        port

/-- `InventoryService::get_product`. -/
def get_product (s : InventoryService) (sku : String) : Except ServiceError Product :=
  match mapGet s.products sku with
  | some p => .ok p
  | none => .error (.ProductNotFound sku)

/-- `InventoryService::list_products`. -/
def list_products (s : InventoryService) : List Product :=
  mapValues s.products

/-- `InventoryService::delete_product`: drop the product and drain its
transactions, then save both collections. -/
def delete_product (s : InventoryService) (port : Storage) (sku : String) :
    Except ServiceError Unit × InventoryService × List SaveCall :=
  if mapContains s.products sku then
    finishBothSaves
      { products := mapRemove s.products sku
        transactions := s.transactions.filter fun t => !(t.product_sku == sku) }
      port
  else (.error (.ProductNotFound sku), s, [])

/-- `InventoryService::add_stock`.  The `u32` increment
`product.quantity += quantity` wraps modulo `2^32`. -/
def add_stock (s : InventoryService) (port : Storage) (fresh_id sku : String)
    (quantity : Nat) (timestamp : Int) (notes : Option String) :
    Except ServiceError Unit × InventoryService × List SaveCall :=
  if quantity == 0 then
    (.error (.InvalidInput "Quantity must be positive"), s, [])
  else match mapGet s.products sku with
  | none => (.error (.ProductNotFound sku), s, [])
  | some _ =>
    let txn : Transaction :=
      { id := fresh_id, product_sku := sku,
        transaction_type := TransactionType.Addition,
        quantity := quantity, timestamp := timestamp, notes := notes }
    finishBothSaves
      { products := mapModify s.products sku fun p =>
          { p with quantity := (p.quantity + quantity) % u32Mod }
        transactions := s.transactions ++ [txn] }
      port

/-- `InventoryService::remove_stock`.  The guard `quantity > product.quantity`
makes the `u32` decrement exact. -/
def remove_stock (s : InventoryService) (port : Storage) (fresh_id sku : String)
    (quantity : Nat) (timestamp : Int) (notes : Option String) :
    Except ServiceError Unit × InventoryService × List SaveCall :=
  if quantity == 0 then
    (.error (.InvalidInput "Quantity must be positive"), s, [])
  else match mapGet s.products sku with
  | none => (.error (.ProductNotFound sku), s, [])
  | some p =>
    if p.quantity < quantity then
      (.error (.InsufficientStock sku quantity p.quantity), s, [])
    else
      let txn : Transaction :=
        { id := fresh_id, product_sku := sku,
          transaction_type := TransactionType.Removal,
          quantity := quantity, timestamp := timestamp, notes := notes }
      finishBothSaves
        { products := mapModify s.products sku fun q =>
            { q with quantity := q.quantity - quantity }
          transactions := s.transactions ++ [txn] }
        port

/-- `InventoryService::list_low_stock`. -/
def list_low_stock (s : InventoryService) : List Product :=
  (mapValues s.products).filter fun p => p.quantity ≤ p.reorder_point

/-- Insert a transaction into a timestamp-sorted list, after every element
with a strictly smaller timestamp and before the rest. -/
def insertByTimestamp (t : Transaction) : List Transaction → List Transaction
  | [] => [t]
  | u :: us =>
    if t.timestamp ≤ u.timestamp then t :: u :: us
    else u :: insertByTimestamp t us

/-- The stable ascending-by-timestamp sort performed by `Vec::sort_by` with
the comparator `a.timestamp.cmp(&b.timestamp)`.  A stable sort's output is
uniquely determined by the key and the input order, so this insertion sort
computes exactly the list `sort_by` produces. -/
def sortByTimestamp : List Transaction → List Transaction
  | [] => []
  | t :: ts => insertByTimestamp t (sortByTimestamp ts)

/-- `InventoryService::get_transactions`: filter the ledger by SKU, then
stable-sort ascending by timestamp. -/
def get_transactions (s : InventoryService) (sku : String) : List Transaction :=
  sortByTimestamp (s.transactions.filter fun t => t.product_sku == sku)

/-- `InventoryService::get_transactions_in_range`: filter the ledger by SKU
and inclusive timestamp window, then stable-sort ascending by timestamp. -/
def get_transactions_in_range (s : InventoryService) (sku : String)
    (start_ts end_ts : Int) : List Transaction :=
  sortByTimestamp (s.transactions.filter fun t =>
    t.product_sku == sku && decide (start_ts ≤ t.timestamp) && decide (t.timestamp ≤ end_ts))

/-- One mutating request of the service API, carrying the fresh UUID and
the clock reading its execution consumes. -/
inductive Op where
  | addProduct (fresh_id sku name description : String)
      (initial_quantity reorder_point : Nat)
  | updateProduct (sku : String) (name description : Option String)
      (reorder_point : Option Nat)
  | addStock (fresh_id sku : String) (quantity : Nat) (timestamp : Int)
      (notes : Option String)
  | removeStock (fresh_id sku : String) (quantity : Nat) (timestamp : Int)
      (notes : Option String)
  | deleteProduct (sku : String)
deriving DecidableEq

/-- Run one mutating operation, forgetting its success payload. -/
def step (s : InventoryService) (port : Storage) :
    Op → Except ServiceError Unit × InventoryService × List SaveCall
  | .addProduct fid sku name description q rp =>
    let r := add_product s port fid sku name description q rp
    (r.1.map fun _ => (), r.2)
  | .updateProduct sku name description rp =>
    let r := update_product s port sku name description rp
    (r.1.map fun _ => (), r.2)
  | .addStock fid sku q ts notes => add_stock s port fid sku q ts notes
  | .removeStock fid sku q ts notes => remove_stock s port fid sku q ts notes
  | .deleteProduct sku => delete_product s port sku

/-- Run one operation with an always-succeeding port; `none` when it fails. -/
def applyOp (s : InventoryService) (op : Op) : Option InventoryService :=
  match step s okPort op with
  | (.ok _, s', _) => some s'
  | (.error _, _, _) => none

/-- Run a sequence of operations, requiring every one of them to succeed. -/
def runOps : InventoryService → List Op → Option InventoryService
  | s, [] => some s
  | s, op :: ops =>
    match applyOp s op with
    | some s' => runOps s' ops
    | none => none

/-- The four validation errors of the service (`errors.rs` taxonomy minus
`StorageError`), all raised before any state change. -/
def isValidationError : ServiceError → Bool
  | .ProductNotFound _ => true
  | .DuplicateSKU _ => true
  | .InvalidInput _ => true
  | .InsufficientStock _ _ _ => true
  | .StorageError _ => false

/-- Operations that modify the ledger and hence issue a transactions save:
`add_stock`, `remove_stock` and `delete_product`. -/
def Op.touches_ledger : Op → Bool
  | .addStock _ _ _ _ _ => true
  | .removeStock _ _ _ _ _ => true
  | .deleteProduct _ => true
  | .addProduct _ _ _ _ _ _ => false
  | .updateProduct _ _ _ _ => false

/-- Whether a save call would persist the ledger. -/
def SaveCall.isTransactionsSave : SaveCall → Bool
  | .saveTransactions _ => true
  | .saveProducts _ => false

/-- Total quantity of the ledger transactions for SKU `k` with type `ty`. -/
def quantity_sum (k : String) (ty : TransactionType) (l : List Transaction) : Nat :=
  ((l.filter fun t => t.product_sku == k && t.transaction_type == ty).map
    Transaction.quantity).sum

/-- The order on transactions used by the `sort_by` comparator. -/
def tsLe (a b : Transaction) : Prop := a.timestamp ≤ b.timestamp

/-- No orphan transactions: every ledger entry refers to a product that is
currently in the catalog. -/
def no_orphans (s : InventoryService) : Prop :=
  ∀ t ∈ s.transactions, mapContains s.products t.product_sku = true

/-- Ledger conservation for SKU `k` with initial quantity `q0`, modulo the
`u32` wrap-around of `add_stock`. -/
def conserves (k : String) (q0 : Nat) (s : InventoryService) : Prop :=
  ∃ p, mapGet s.products k = some p ∧
    Nat.ModEq u32Mod
      (p.quantity + quantity_sum k TransactionType.Removal s.transactions)
      (q0 + quantity_sum k TransactionType.Addition s.transactions)

/-- Catalog key coherence: every key of the SKU-indexed map equals the
`sku` field of the product stored under it, and the keys are pairwise
distinct. -/
def catalog_coherent (m : Catalog) : Prop :=
  (∀ kp ∈ m, (kp : String × Product).2.sku = kp.1) ∧
    (m.map fun kp => kp.1).Nodup

/-- A sample product, used to instantiate witnesses. -/
def sampleProduct : Product :=
  { id := "id-1", sku := "K", name := "Widget", description := "",
    quantity := 5, reorder_point := 0 }

/-- A sample one-product service state, used to instantiate witnesses. -/
def sampleService : InventoryService :=
  { products := [("K", sampleProduct)], transactions := [] }

/-- A service state holding a product whose stock sits at `u32::MAX`. -/
def maxStockService : InventoryService :=
  { products := [("K",
      { id := "id-1", sku := "K", name := "Widget", description := "",
        quantity := 4294967295, reorder_point := 0 })]
    transactions := [] }

/-- The state reached from the empty store by
`add_product "K" 5; add_stock "K" 3; remove_stock "K" 2`. -/
def c1FinalState : InventoryService :=
  { products := [("K",
      { id := "p1", sku := "K", name := "W", description := "",
        quantity := 6, reorder_point := 0 })]
    transactions :=
      [⟨"t1", "K", TransactionType.Addition, 3, 0, none⟩,
       ⟨"t2", "K", TransactionType.Removal, 2, 1, none⟩] }

/-!  ## Lemmas about the association-list model of the catalog map  -/

theorem mapGet_cons (kp : String × Product) (m : Catalog) (k : String) :
    mapGet (kp :: m) k = if kp.1 == k then some kp.2 else mapGet m k := by
  by_cases h : kp.1 == k <;> simp [mapGet, List.find?_cons, h]

theorem mapContains_cons (kp : String × Product) (m : Catalog) (k : String) :
    mapContains (kp :: m) k = ((kp.1 == k) || mapContains m k) := by
  simp [mapContains]

theorem mapContains_eq_isSome (m : Catalog) (k : String) :
    mapContains m k = (mapGet m k).isSome := by
  induction m with
  | nil => rfl
  | cons kp m ih =>
    rw [mapContains_cons, mapGet_cons]
    by_cases h : kp.1 == k <;> simp [h, ih]

theorem mapGet_append (m m' : Catalog) (k : String) :
    mapGet (m ++ m') k =
      match mapGet m k with
      | some p => some p
      | none => mapGet m' k := by
  induction m with
  | nil => simp [mapGet]
  | cons kp m ih =>
    rw [List.cons_append, mapGet_cons, mapGet_cons]
    by_cases h : kp.1 == k <;> simp [h, ih]

theorem mapGet_replace_self (m : Catalog) (k : String) (v : Product) :
    mapGet (m.map fun kp => if kp.1 == k then (kp.1, v) else kp) k =
      if mapContains m k then some v else none := by
  induction m with
  | nil => simp [mapGet, mapContains]
  | cons kp m ih =>
    by_cases h : kp.1 = k <;>
      simp [mapGet_cons, mapContains_cons, h] at ih ⊢ <;> exact ih

theorem mapGet_replace_of_ne (m : Catalog) (k k' : String) (v : Product)
    (h : k' ≠ k) :
    mapGet (m.map fun kp => if kp.1 == k then (kp.1, v) else kp) k' = mapGet m k' := by
  have hkk : k ≠ k' := fun hh => h hh.symm
  induction m with
  | nil => simp
  | cons kp m ih =>
    by_cases hk : kp.1 = k <;> by_cases hk2 : kp.1 = k' <;>
        simp [mapGet_cons, hk, hk2, h, hkk] at ih ⊢ <;>
      exact ih

theorem mapGet_mapInsert_self (m : Catalog) (k : String) (v : Product) :
    mapGet (mapInsert m k v) k = some v := by
  unfold mapInsert
  by_cases hc : mapContains m k
  · rw [if_pos hc, mapGet_replace_self, if_pos hc]
  · rw [if_neg hc, mapGet_append]
    rw [mapContains_eq_isSome] at hc
    cases hg : mapGet m k with
    | some p => rw [hg] at hc; simp at hc
    | none => simp [mapGet_cons, mapGet]

theorem mapGet_mapInsert_of_ne (m : Catalog) (k k' : String) (v : Product)
    (h : k' ≠ k) : mapGet (mapInsert m k v) k' = mapGet m k' := by
  unfold mapInsert
  by_cases hc : mapContains m k
  · rw [if_pos hc]
    exact mapGet_replace_of_ne m k k' v h
  · rw [if_neg hc, mapGet_append]
    cases hg : mapGet m k' with
    | some p => rfl
    | none => simp [mapGet_cons, Ne.symm h, mapGet]

theorem mapContains_mapInsert (m : Catalog) (k k' : String) (v : Product) :
    mapContains (mapInsert m k v) k' = ((k' == k) || mapContains m k') := by
  by_cases h : k' = k
  · subst h
    rw [mapContains_eq_isSome, mapGet_mapInsert_self]
    simp
  · rw [mapContains_eq_isSome, mapGet_mapInsert_of_ne m k k' v h,
      ← mapContains_eq_isSome]
    simp [h]

theorem mapGet_mapModify_self (m : Catalog) (k : String) (f : Product → Product) :
    mapGet (mapModify m k f) k = (mapGet m k).map f := by
  induction m with
  | nil => simp [mapModify, mapGet]
  | cons kp m ih =>
    unfold mapModify at ih ⊢
    by_cases h : kp.1 = k <;>
      simp [mapGet_cons, h] at ih ⊢ <;> exact ih

theorem mapGet_mapModify_of_ne (m : Catalog) (k k' : String) (f : Product → Product)
    (h : k' ≠ k) : mapGet (mapModify m k f) k' = mapGet m k' := by
  have hkk : k ≠ k' := fun hh => h hh.symm
  induction m with
  | nil => simp [mapModify, mapGet]
  | cons kp m ih =>
    unfold mapModify at ih ⊢
    by_cases hk : kp.1 = k <;> by_cases hk2 : kp.1 = k' <;>
        simp [mapGet_cons, hk, hk2, h, hkk] at ih ⊢ <;>
      exact ih

theorem mapContains_mapModify (m : Catalog) (k k' : String) (f : Product → Product) :
    mapContains (mapModify m k f) k' = mapContains m k' := by
  by_cases h : k' = k
  · subst h
    rw [mapContains_eq_isSome, mapContains_eq_isSome, mapGet_mapModify_self]
    cases mapGet m k' <;> rfl
  · rw [mapContains_eq_isSome, mapContains_eq_isSome, mapGet_mapModify_of_ne m k k' f h]

theorem mapGet_mapRemove_self (m : Catalog) (k : String) :
    mapGet (mapRemove m k) k = none := by
  induction m with
  | nil => rfl
  | cons kp m ih =>
    unfold mapRemove at ih ⊢
    rw [List.filter_cons]
    by_cases h : kp.1 = k <;> simp [mapGet_cons, h] at ih ⊢ <;> exact ih

theorem mapGet_mapRemove_of_ne (m : Catalog) (k k' : String) (h : k' ≠ k) :
    mapGet (mapRemove m k) k' = mapGet m k' := by
  induction m with
  | nil => rfl
  | cons kp m ih =>
    unfold mapRemove at ih ⊢
    rw [List.filter_cons]
    have hkk : k ≠ k' := fun hh => h hh.symm
    by_cases hk : kp.1 = k <;> by_cases hk2 : kp.1 = k' <;>
        simp [mapGet_cons, hk, hk2, h, hkk] at ih ⊢ <;>
      exact ih

theorem mapContains_mapRemove_of_ne (m : Catalog) (k k' : String) (h : k' ≠ k) :
    mapContains (mapRemove m k) k' = mapContains m k' := by
  rw [mapContains_eq_isSome, mapContains_eq_isSome, mapGet_mapRemove_of_ne m k k' h]

/-!  ## Ledger sums  -/

theorem quantity_sum_append (k : String) (ty : TransactionType)
    (l1 l2 : List Transaction) :
    quantity_sum k ty (l1 ++ l2) = quantity_sum k ty l1 + quantity_sum k ty l2 := by
  simp [quantity_sum, List.filter_append]

theorem quantity_sum_singleton (k : String) (ty : TransactionType) (t : Transaction) :
    quantity_sum k ty [t] =
      if t.product_sku = k ∧ t.transaction_type = ty then t.quantity else 0 := by
  by_cases h1 : t.product_sku = k <;> by_cases h2 : t.transaction_type = ty <;>
    simp [quantity_sum, h1, h2]

theorem quantity_sum_eq_zero (k : String) (ty : TransactionType)
    (l : List Transaction) (h : ∀ t ∈ l, t.product_sku ≠ k) :
    quantity_sum k ty l = 0 := by
  have hf : l.filter (fun t => t.product_sku == k && t.transaction_type == ty) = [] := by
    rw [List.filter_eq_nil_iff]
    intro t ht
    simp [h t ht]
  simp [quantity_sum, hf]

theorem quantity_sum_filter_ne (k k' : String) (ty : TransactionType)
    (l : List Transaction) (h : k ≠ k') :
    quantity_sum k ty (l.filter fun t => !(t.product_sku == k'))
      = quantity_sum k ty l := by
  unfold quantity_sum
  rw [List.filter_filter]
  have : ∀ t ∈ l,
      ((t.product_sku == k && t.transaction_type == ty) && !(t.product_sku == k'))
        = (t.product_sku == k && t.transaction_type == ty) := by
    intro t _
    by_cases hs : t.product_sku = k <;> simp [hs, h]
  rw [List.filter_congr this]

/-!  ## The stable timestamp sort  -/

theorem insertByTimestamp_nil (t : Transaction) :
    insertByTimestamp t [] = [t] := rfl

theorem insertByTimestamp_cons (t u : Transaction) (l : List Transaction) :
    insertByTimestamp t (u :: l) =
      if t.timestamp ≤ u.timestamp then t :: u :: l
      else u :: insertByTimestamp t l := rfl

theorem mem_insertByTimestamp (t x : Transaction) (l : List Transaction) :
    x ∈ insertByTimestamp t l ↔ x = t ∨ x ∈ l := by
  induction l with
  | nil => simp [insertByTimestamp]
  | cons u us ih =>
    rw [insertByTimestamp_cons]
    by_cases h : t.timestamp ≤ u.timestamp <;> simp [h, ih] <;> tauto

theorem perm_insertByTimestamp (t : Transaction) (l : List Transaction) :
    List.Perm (insertByTimestamp t l) (t :: l) := by
  induction l with
  | nil => simp [insertByTimestamp]
  | cons u us ih =>
    rw [insertByTimestamp_cons]
    by_cases h : t.timestamp ≤ u.timestamp
    · rw [if_pos h]
    · rw [if_neg h]
      exact (ih.cons u).trans (List.Perm.swap t u us)

theorem pairwise_insertByTimestamp (t : Transaction) (l : List Transaction)
    (h : l.Pairwise tsLe) : (insertByTimestamp t l).Pairwise tsLe := by
  induction l with
  | nil => simp [insertByTimestamp, tsLe]
  | cons u us ih =>
    rcases List.pairwise_cons.mp h with ⟨hu, hus⟩
    rw [insertByTimestamp_cons]
    by_cases hle : t.timestamp ≤ u.timestamp
    · rw [if_pos hle]
      refine List.pairwise_cons.mpr ⟨?_, h⟩
      intro x hx
      rcases List.mem_cons.mp hx with rfl | hx
      · exact hle
      · exact le_trans hle (hu x hx)
    · rw [if_neg hle]
      refine List.pairwise_cons.mpr ⟨?_, ih hus⟩
      intro x hx
      rcases (mem_insertByTimestamp t x us).mp hx with rfl | hx
      · exact le_of_not_le hle
      · exact hu x hx

theorem pairwise_sortByTimestamp (l : List Transaction) :
    (sortByTimestamp l).Pairwise tsLe := by
  induction l with
  | nil => simp [sortByTimestamp]
  | cons t ts ih => exact pairwise_insertByTimestamp t _ ih

theorem perm_sortByTimestamp (l : List Transaction) :
    List.Perm (sortByTimestamp l) l := by
  induction l with
  | nil => rfl
  | cons t ts ih => exact (perm_insertByTimestamp t _).trans (ih.cons t)

theorem filter_ts_insertByTimestamp (t0 : Int) (t : Transaction)
    (l : List Transaction) :
    (insertByTimestamp t l).filter (fun x => x.timestamp == t0)
      = (t :: l).filter (fun x => x.timestamp == t0) := by
  induction l with
  | nil => simp [insertByTimestamp]
  | cons u us ih =>
    rw [insertByTimestamp_cons]
    by_cases hle : t.timestamp ≤ u.timestamp
    · rw [if_pos hle]
    · rw [if_neg hle]
      have hlt : u.timestamp < t.timestamp := not_le.mp hle
      by_cases hpt : t.timestamp = t0
      · have hpu : ¬ u.timestamp = t0 := by omega
        simp [List.filter_cons, hpt, hpu, ih]
      · simp [List.filter_cons, hpt, ih]

theorem filter_ts_sortByTimestamp (t0 : Int) (l : List Transaction) :
    (sortByTimestamp l).filter (fun x => x.timestamp == t0)
      = l.filter (fun x => x.timestamp == t0) := by
  induction l with
  | nil => rfl
  | cons t ts ih =>
    show (insertByTimestamp t (sortByTimestamp ts)).filter _ = _
    rw [filter_ts_insertByTimestamp]
    simp [List.filter_cons, ih]

theorem filter_insertByTimestamp_of_sorted (q : Transaction → Bool)
    (t : Transaction) (l : List Transaction) (h : l.Pairwise tsLe) :
    (insertByTimestamp t l).filter q =
      if q t then insertByTimestamp t (l.filter q) else l.filter q := by
  induction l with
  | nil => cases hq : q t <;> simp [insertByTimestamp, hq, List.filter_cons]
  | cons u us ih =>
    rcases List.pairwise_cons.mp h with ⟨hu, hus⟩
    rw [insertByTimestamp_cons]
    by_cases hle : t.timestamp ≤ u.timestamp
    · rw [if_pos hle, List.filter_cons]
      cases hqt : q t with
      | false => simp [hqt]
      | true =>
        have hall : ∀ x ∈ (u :: us).filter q, t.timestamp ≤ x.timestamp := by
          intro x hx
          have hxm : x ∈ u :: us := List.mem_of_mem_filter hx
          rcases List.mem_cons.mp hxm with rfl | hxm
          · exact hle
          · exact le_trans hle (hu x hxm)
        cases hf : (u :: us).filter q with
        | nil => simp [hf, insertByTimestamp_nil]
        | cons y ys =>
          have hy : t.timestamp ≤ y.timestamp := by
            refine hall y ?_
            rw [hf]
            exact List.mem_cons_self y ys
          simp [hf, insertByTimestamp_cons, hy]
    · rw [if_neg hle, List.filter_cons, ih hus, List.filter_cons]
      cases hqt : q t <;> cases hqu : q u <;>
        simp [hqt, hqu, insertByTimestamp_cons, hle]

theorem filter_sortByTimestamp (q : Transaction → Bool) (l : List Transaction) :
    (sortByTimestamp l).filter q = sortByTimestamp (l.filter q) := by
  induction l with
  | nil => rfl
  | cons t ts ih =>
    show (insertByTimestamp t (sortByTimestamp ts)).filter q = _
    rw [filter_insertByTimestamp_of_sorted q t _ (pairwise_sortByTimestamp ts), ih,
      List.filter_cons]
    cases hq : q t <;> simp [sortByTimestamp]

/-!  ## Behaviour of the persist epilogues  -/

theorem finishProductsSave_state (a : Product) (s' : InventoryService) (port : Storage) :
    (finishProductsSave a s' port).2.1 = s' := by
  unfold finishProductsSave
  cases persist_products s' port <;> rfl

theorem finishProductsSave_calls (a : Product) (s' : InventoryService) (port : Storage) :
    (finishProductsSave a s' port).2.2 = [SaveCall.saveProducts (mapValues s'.products)] := by
  unfold finishProductsSave
  cases persist_products s' port <;> rfl

theorem finishProductsSave_error (a : Product) (s' : InventoryService) (port : Storage)
    (e : ServiceError) (h : (finishProductsSave a s' port).1 = .error e) :
    isValidationError e = false := by
  unfold finishProductsSave at h
  cases hp : persist_products s' port with
  | some e2 => rw [hp] at h; simp at h; subst h; rfl
  | none => rw [hp] at h; simp at h

theorem finishProductsSave_ok (a : Product) (s' : InventoryService) (port : Storage)
    (b : Product) (h : (finishProductsSave a s' port).1 = .ok b) :
    b = a ∧ persist_products s' port = none := by
  unfold finishProductsSave at h
  cases hp : persist_products s' port with
  | some e2 => rw [hp] at h; simp at h
  | none => rw [hp] at h; simp at h; exact ⟨h.symm, rfl⟩

theorem finishBothSaves_state (s' : InventoryService) (port : Storage) :
    (finishBothSaves s' port).2.1 = s' := by
  unfold finishBothSaves
  cases persist_products s' port with
  | some e => rfl
  | none => cases persist_transactions s' port <;> rfl

theorem finishBothSaves_error (s' : InventoryService) (port : Storage)
    (e : ServiceError) (h : (finishBothSaves s' port).1 = .error e) :
    isValidationError e = false := by
  unfold finishBothSaves at h
  cases hp : persist_products s' port with
  | some e2 => rw [hp] at h; simp at h; subst h; rfl
  | none =>
    rw [hp] at h
    cases hq : persist_transactions s' port with
    | some e2 => rw [hq] at h; simp at h; subst h; rfl
    | none => rw [hq] at h; simp at h

theorem finishBothSaves_ok (s' : InventoryService) (port : Storage)
    (h : (finishBothSaves s' port).1 = .ok ()) :
    persist_products s' port = none ∧ persist_transactions s' port = none := by
  unfold finishBothSaves at h
  cases hp : persist_products s' port with
  | some e2 => rw [hp] at h; simp at h
  | none =>
    rw [hp] at h
    cases hq : persist_transactions s' port with
    | some e2 => rw [hq] at h; simp at h
    | none => exact ⟨rfl, rfl⟩

theorem finishBothSaves_calls_of_ok (s' : InventoryService) (port : Storage)
    (h : (finishBothSaves s' port).1 = .ok ()) :
    (finishBothSaves s' port).2.2 =
      [SaveCall.saveProducts (mapValues s'.products),
       SaveCall.saveTransactions s'.transactions] := by
  rcases finishBothSaves_ok s' port h with ⟨hp, hq⟩
  simp [finishBothSaves, hp, hq]

theorem finishBothSaves_calls (s' : InventoryService) (port : Storage) :
    (finishBothSaves s' port).2.2 = [SaveCall.saveProducts (mapValues s'.products)] ∨
    (finishBothSaves s' port).2.2 =
      [SaveCall.saveProducts (mapValues s'.products),
       SaveCall.saveTransactions s'.transactions] := by
  unfold finishBothSaves
  cases persist_products s' port with
  | some e => exact Or.inl rfl
  | none =>
    cases persist_transactions s' port with
    | some e => exact Or.inr rfl
    | none => exact Or.inr rfl

theorem finishProductsSave_okPort (a : Product) (s' : InventoryService) :
    finishProductsSave a s' okPort =
      (.ok a, s', [SaveCall.saveProducts (mapValues s'.products)]) := rfl

theorem finishBothSaves_okPort (s' : InventoryService) :
    finishBothSaves s' okPort =
      (.ok (), s',
        [SaveCall.saveProducts (mapValues s'.products),
         SaveCall.saveTransactions s'.transactions]) := rfl

/-!  ## Exhaustive case analyses of the five mutating operations  -/

theorem add_product_eq (s : InventoryService) (port : Storage)
    (fid sku n d : String) (q rp : Nat) :
    (trim_is_empty sku = true ∧
      add_product s port fid sku n d q rp =
        (.error (.InvalidInput "SKU cannot be empty"), s, [])) ∨
    (trim_is_empty sku = false ∧ trim_is_empty n = true ∧
      add_product s port fid sku n d q rp =
        (.error (.InvalidInput "Name cannot be empty"), s, [])) ∨
    (trim_is_empty sku = false ∧ trim_is_empty n = false ∧
      mapContains s.products sku = true ∧
      add_product s port fid sku n d q rp = (.error (.DuplicateSKU sku), s, [])) ∨
    (trim_is_empty sku = false ∧ trim_is_empty n = false ∧
      mapContains s.products sku = false ∧
      add_product s port fid sku n d q rp =
        finishProductsSave ⟨fid, sku, n, d, q, rp⟩
          ⟨mapInsert s.products sku ⟨fid, sku, n, d, q, rp⟩, s.transactions⟩ port) := by
  by_cases h1 : trim_is_empty sku = true
  · exact Or.inl ⟨h1, by unfold add_product; rw [if_pos h1]⟩
  · have h1' : trim_is_empty sku = false := by simpa using h1
    by_cases h2 : trim_is_empty n = true
    · exact Or.inr (Or.inl ⟨h1', h2, by unfold add_product; rw [if_neg h1, if_pos h2]⟩)
    · have h2' : trim_is_empty n = false := by simpa using h2
      by_cases h3 : mapContains s.products sku = true
      · exact Or.inr (Or.inr (Or.inl ⟨h1', h2', h3,
          by unfold add_product; rw [if_neg h1, if_neg h2, if_pos h3]⟩))
      · have h3' : mapContains s.products sku = false := by simpa using h3
        exact Or.inr (Or.inr (Or.inr ⟨h1', h2', h3',
          by unfold add_product; rw [if_neg h1, if_neg h2, if_neg h3]⟩))

theorem update_product_eq (s : InventoryService) (port : Storage) (sku : String)
    (name d : Option String) (rp : Option Nat) :
    (mapGet s.products sku = none ∧
      update_product s port sku name d rp = (.error (.ProductNotFound sku), s, [])) ∨
    (∃ p, mapGet s.products sku = some p ∧
      (match name with | some n => trim_is_empty n | none => false) = true ∧
      update_product s port sku name d rp =
        (.error (.InvalidInput "Name cannot be empty"), s, [])) ∨
    (∃ p, mapGet s.products sku = some p ∧
      (match name with | some n => trim_is_empty n | none => false) = false ∧
      update_product s port sku name d rp =
        finishProductsSave (applyFields p name d rp)
          ⟨mapModify s.products sku (fun q0 => applyFields q0 name d rp),
           s.transactions⟩ port) := by
  cases hg : mapGet s.products sku with
  | none => exact Or.inl ⟨rfl, by unfold update_product; rw [hg]⟩
  | some p =>
    cases name with
    | none =>
      exact Or.inr (Or.inr ⟨p, rfl, rfl, by unfold update_product; rw [hg]; rfl⟩)
    | some n =>
      by_cases hn : trim_is_empty n = true
      · exact Or.inr (Or.inl ⟨p, rfl, hn,
          by unfold update_product; rw [hg]; dsimp only; rw [if_pos hn]⟩)
      · have hn' : trim_is_empty n = false := by simpa using hn
        exact Or.inr (Or.inr ⟨p, rfl, hn',
          by unfold update_product; rw [hg]; dsimp only; rw [if_neg hn]⟩)

theorem add_stock_eq (s : InventoryService) (port : Storage) (fid sku : String)
    (q : Nat) (ts : Int) (notes : Option String) :
    ((q == 0) = true ∧ add_stock s port fid sku q ts notes =
        (.error (.InvalidInput "Quantity must be positive"), s, [])) ∨
    ((q == 0) = false ∧ mapGet s.products sku = none ∧
      add_stock s port fid sku q ts notes = (.error (.ProductNotFound sku), s, [])) ∨
    ((q == 0) = false ∧ (∃ p, mapGet s.products sku = some p) ∧
      add_stock s port fid sku q ts notes =
        finishBothSaves
          ⟨mapModify s.products sku
             (fun p0 => { p0 with quantity := (p0.quantity + q) % u32Mod }),
           s.transactions ++ [⟨fid, sku, TransactionType.Addition, q, ts, notes⟩]⟩
          port) := by
  by_cases h0 : (q == 0) = true
  · exact Or.inl ⟨h0, by unfold add_stock; rw [if_pos h0]⟩
  · have h0' : (q == 0) = false := by simpa using h0
    cases hg : mapGet s.products sku with
    | none => exact Or.inr (Or.inl ⟨h0', rfl, by unfold add_stock; rw [if_neg h0, hg]⟩)
    | some p =>
      exact Or.inr (Or.inr ⟨h0', ⟨p, rfl⟩, by unfold add_stock; rw [if_neg h0, hg]⟩)

theorem remove_stock_eq (s : InventoryService) (port : Storage) (fid sku : String)
    (q : Nat) (ts : Int) (notes : Option String) :
    ((q == 0) = true ∧ remove_stock s port fid sku q ts notes =
        (.error (.InvalidInput "Quantity must be positive"), s, [])) ∨
    ((q == 0) = false ∧ mapGet s.products sku = none ∧
      remove_stock s port fid sku q ts notes = (.error (.ProductNotFound sku), s, [])) ∨
    ((q == 0) = false ∧ (∃ p, mapGet s.products sku = some p ∧ p.quantity < q ∧
      remove_stock s port fid sku q ts notes =
        (.error (.InsufficientStock sku q p.quantity), s, []))) ∨
    ((q == 0) = false ∧ (∃ p, mapGet s.products sku = some p ∧ ¬ p.quantity < q ∧
      remove_stock s port fid sku q ts notes =
        finishBothSaves
          ⟨mapModify s.products sku
             (fun q0 => { q0 with quantity := q0.quantity - q }),
           s.transactions ++ [⟨fid, sku, TransactionType.Removal, q, ts, notes⟩]⟩
          port)) := by
  by_cases h0 : (q == 0) = true
  · exact Or.inl ⟨h0, by unfold remove_stock; rw [if_pos h0]⟩
  · have h0' : (q == 0) = false := by simpa using h0
    cases hg : mapGet s.products sku with
    | none => exact Or.inr (Or.inl ⟨h0', rfl, by unfold remove_stock; rw [if_neg h0, hg]⟩)
    | some p =>
      by_cases hlt : p.quantity < q
      · exact Or.inr (Or.inr (Or.inl ⟨h0', p, rfl, hlt,
          by unfold remove_stock; rw [if_neg h0, hg]; dsimp only; rw [if_pos hlt]⟩))
      · exact Or.inr (Or.inr (Or.inr ⟨h0', p, rfl, hlt,
          by unfold remove_stock; rw [if_neg h0, hg]; dsimp only; rw [if_neg hlt]⟩))

theorem delete_product_eq (s : InventoryService) (port : Storage) (sku : String) :
    (mapContains s.products sku = false ∧
      delete_product s port sku = (.error (.ProductNotFound sku), s, [])) ∨
    (mapContains s.products sku = true ∧
      delete_product s port sku =
        finishBothSaves
          ⟨mapRemove s.products sku,
           s.transactions.filter fun t => !(t.product_sku == sku)⟩
          port) := by
  by_cases h : mapContains s.products sku = true
  · exact Or.inr ⟨h, by unfold delete_product; rw [if_pos h]⟩
  · exact Or.inl ⟨by simpa using h, by unfold delete_product; rw [if_neg h]⟩

theorem except_map_error_iff {ε α β : Type} (f : α → β) (x : Except ε α) (e : ε) :
    x.map f = .error e ↔ x = .error e := by
  cases x <;> simp [Except.map]

/-!  ## Claims  -/

/-- C2: for an existing product with on-hand stock `p.quantity` and a
requested quantity `q ≥ 1`, `remove_stock` returns
`InsufficientStock{sku, requested := q, available := p.quantity}` exactly
when `q > p.quantity`, and in that case the state is unchanged and no save
call is issued (so nothing is appended to the ledger). -/
theorem C2_insufficient_stock (s : InventoryService) (port : Storage)
    (fid k : String) (q : Nat) (ts : Int) (notes : Option String) (p : Product)
    (hp : mapGet s.products k = some p) (hq : 1 ≤ q) :
    ((remove_stock s port fid k q ts notes).1
        = .error (.InsufficientStock k q p.quantity) ↔ p.quantity < q) ∧
    (p.quantity < q →
      (remove_stock s port fid k q ts notes).2.1 = s ∧
      (remove_stock s port fid k q ts notes).2.2 = []) := by
  have h0 : (q == 0) = false := by
    simp only [beq_eq_false_iff_ne, ne_eq]
    omega
  rcases remove_stock_eq s port fid k q ts notes with
    ⟨hz, _⟩ | ⟨_, hnone, _⟩ | ⟨_, p2, hp2, hlt, heq⟩ | ⟨_, p2, hp2, hge, heq⟩
  · rw [h0] at hz
    exact absurd hz (by simp)
  · rw [hp] at hnone
    cases hnone
  · have hpp : p2 = p := by
      rw [hp] at hp2
      injection hp2 with h
      exact h.symm
    rw [hpp] at hlt heq
    refine ⟨⟨fun _ => hlt, fun _ => by rw [heq]⟩, fun _ => ?_⟩
    rw [heq]
    exact ⟨rfl, rfl⟩
  · have hpp : p2 = p := by
      rw [hp] at hp2
      injection hp2 with h
      exact h.symm
    rw [hpp] at hge
    refine ⟨⟨fun herr => ?_, fun hlt2 => absurd hlt2 hge⟩,
      fun hlt2 => absurd hlt2 hge⟩
    rw [heq] at herr
    have hv := finishBothSaves_error _ port _ herr
    simp [isValidationError] at hv

/-- Witness for C2 at a concrete input. -/
theorem C2_witness :
    mapGet sampleService.products "K" = some sampleProduct ∧
    (((remove_stock sampleService okPort "t" "K" 10 0 none).1
        = .error (.InsufficientStock "K" 10 sampleProduct.quantity) ↔
        sampleProduct.quantity < 10) ∧
      (sampleProduct.quantity < 10 →
        (remove_stock sampleService okPort "t" "K" 10 0 none).2.1 = sampleService ∧
        (remove_stock sampleService okPort "t" "K" 10 0 none).2.2 = [])) :=
  ⟨by decide,
   C2_insufficient_stock sampleService okPort "t" "K" 10 0 none sampleProduct
     (by decide) (by decide)⟩

/-- C5: deleting an existing product succeeds regardless of its stock
level, and afterwards the ledger holds no transaction with that SKU,
`get_transactions` returns the empty list and `get_product` fails with
`ProductNotFound`. -/
theorem C5_delete_purges (s : InventoryService) (port : Storage) (k : String)
    (p : Product) (hp : mapGet s.products k = some p) :
    (delete_product s okPort k).1 = .ok () ∧
    ∀ r s' cs, delete_product s port k = (r, s', cs) → r = .ok () →
      (s'.transactions.filter fun t => t.product_sku == k) = [] ∧
      get_transactions s' k = [] ∧
      get_product s' k = .error (.ProductNotFound k) := by
  have hcont : mapContains s.products k = true := by
    rw [mapContains_eq_isSome, hp]
    rfl
  constructor
  · rcases delete_product_eq s okPort k with ⟨hb, _⟩ | ⟨_, heq⟩
    · rw [hcont] at hb
      cases hb
    · rw [heq, finishBothSaves_okPort]
  · intro r s' cs hrun _
    rcases delete_product_eq s port k with ⟨hb, _⟩ | ⟨_, heq⟩
    · rw [hcont] at hb
      cases hb
    · rw [heq] at hrun
      have hs' : s' =
          (⟨mapRemove s.products k,
            s.transactions.filter fun t => !(t.product_sku == k)⟩ :
            InventoryService) := by
        have := congrArg (fun x => x.2.1) hrun
        simp only at this
        rw [← this, finishBothSaves_state]
      subst hs'
      have hfil : ((s.transactions.filter fun t => !(t.product_sku == k)).filter
          fun t => t.product_sku == k) = [] := by
        rw [List.filter_filter, List.filter_eq_nil_iff]
        intro t _
        by_cases h : t.product_sku = k <;> simp [h]
      refine ⟨hfil, ?_, ?_⟩
      · show sortByTimestamp (List.filter _ _) = []
        rw [hfil]
        rfl
      · show get_product _ k = _
        unfold get_product
        rw [show mapGet (mapRemove s.products k) k = none from
          mapGet_mapRemove_self s.products k]

/-- Witness for C5 at a concrete input. -/
theorem C5_witness :
    mapGet sampleService.products "K" = some sampleProduct ∧
    ((delete_product sampleService okPort "K").1 = .ok () ∧
      ∀ r s' cs, delete_product sampleService okPort "K" = (r, s', cs) →
        r = .ok () →
        (s'.transactions.filter fun t => t.product_sku == "K") = [] ∧
        get_transactions s' "K" = [] ∧
        get_product s' "K" = .error (.ProductNotFound "K")) :=
  ⟨by decide, C5_delete_purges sampleService okPort "K" sampleProduct (by decide)⟩

/-- C8 (amended): a successful `add_stock(sku, m)` with `m ≥ 1` on a
product with quantity `q` appends exactly one `Addition` transaction
carrying `m` and the product's SKU, and sets the quantity to
`(q + m) % 2^32` — which equals the exact sum `q + m` whenever that sum
does not overflow `u32`. -/
theorem C8_add_stock_exact (s : InventoryService) (port : Storage)
    (fid k : String) (m : Nat) (ts : Int) (notes : Option String)
    (p : Product) (u : Unit) (s' : InventoryService) (cs : List SaveCall)
    (hp : mapGet s.products k = some p) (hm : 1 ≤ m)
    (hrun : add_stock s port fid k m ts notes = (.ok u, s', cs)) :
    s'.transactions =
      s.transactions ++ [⟨fid, k, TransactionType.Addition, m, ts, notes⟩] ∧
    mapGet s'.products k = some { p with quantity := (p.quantity + m) % u32Mod } ∧
    (p.quantity + m < u32Mod →
      mapGet s'.products k = some { p with quantity := p.quantity + m }) := by
  have h0 : (m == 0) = false := by
    simp only [beq_eq_false_iff_ne, ne_eq]
    omega
  rcases add_stock_eq s port fid k m ts notes with
    ⟨hz, _⟩ | ⟨_, hnone, _⟩ | ⟨_, _, heq⟩
  · rw [h0] at hz
    exact absurd hz (by simp)
  · rw [hp] at hnone
    cases hnone
  · rw [heq] at hrun
    have hs' : s' =
        (⟨mapModify s.products k
            (fun p0 => { p0 with quantity := (p0.quantity + m) % u32Mod }),
          s.transactions ++ [⟨fid, k, TransactionType.Addition, m, ts, notes⟩]⟩ :
          InventoryService) := by
      have := congrArg (fun x => x.2.1) hrun
      simp only at this
      rw [← this, finishBothSaves_state]
    subst hs'
    refine ⟨rfl, ?_, ?_⟩
    · dsimp only
      rw [mapGet_mapModify_self, hp]
      rfl
    · intro hlt
      dsimp only
      rw [mapGet_mapModify_self, hp]
      dsimp only [Option.map]
      rw [Nat.mod_eq_of_lt hlt]

/-- Witness for C8 at a concrete input. -/
theorem C8_witness :
    mapGet sampleService.products "K" = some sampleProduct ∧
    add_stock sampleService okPort "t" "K" 3 7 none =
      (.ok (), (add_stock sampleService okPort "t" "K" 3 7 none).2.1,
        (add_stock sampleService okPort "t" "K" 3 7 none).2.2) ∧
    ((add_stock sampleService okPort "t" "K" 3 7 none).2.1.transactions =
        sampleService.transactions ++
          [⟨"t", "K", TransactionType.Addition, 3, 7, none⟩] ∧
      mapGet (add_stock sampleService okPort "t" "K" 3 7 none).2.1.products "K" =
        some { sampleProduct with quantity := (sampleProduct.quantity + 3) % u32Mod } ∧
      (sampleProduct.quantity + 3 < u32Mod →
        mapGet (add_stock sampleService okPort "t" "K" 3 7 none).2.1.products "K" =
          some { sampleProduct with quantity := sampleProduct.quantity + 3 })) :=
  ⟨by decide, by decide,
   C8_add_stock_exact sampleService okPort "t" "K" 3 7 none sampleProduct ()
     (add_stock sampleService okPort "t" "K" 3 7 none).2.1
     (add_stock sampleService okPort "t" "K" 3 7 none).2.2
     (by decide) (by decide) (by decide)⟩

/-- Counterexample to C8 as stated: with stock at `u32::MAX`, a successful
`add_stock` of 1 leaves quantity `0`, not the exact sum `u32::MAX + 1`. -/
theorem C8_overflow_cex :
    (add_stock maxStockService okPort "t" "K" 1 0 none).1 = .ok () ∧
    (mapGet (add_stock maxStockService okPort "t" "K" 1 0 none).2.1.products
        "K").map Product.quantity = some 0 ∧
    (0 : Nat) ≠ 4294967295 + 1 := by decide

/-- C10: `add_product` stores the SKU verbatim — untrimmed — as both the
catalog key and the product's `sku` field, and the duplicate check compares
exact strings, so two SKUs that differ only in surrounding whitespace
coexist as distinct catalog entries reachable only via their exact
original strings. -/
theorem C10_sku_verbatim (s : InventoryService)
    (fid1 fid2 k1 k2 n1 n2 d1 d2 : String) (q1 q2 rp1 rp2 : Nat)
    (hk1 : trim_is_empty k1 = false) (hn1 : trim_is_empty n1 = false)
    (hk2 : trim_is_empty k2 = false) (hn2 : trim_is_empty n2 = false)
    (ha1 : mapContains s.products k1 = false)
    (ha2 : mapContains s.products k2 = false) (hne : k2 ≠ k1) :
    (add_product s okPort fid1 k1 n1 d1 q1 rp1).1 = .ok ⟨fid1, k1, n1, d1, q1, rp1⟩ ∧
    (add_product (add_product s okPort fid1 k1 n1 d1 q1 rp1).2.1 okPort
        fid2 k2 n2 d2 q2 rp2).1 = .ok ⟨fid2, k2, n2, d2, q2, rp2⟩ ∧
    mapGet (add_product (add_product s okPort fid1 k1 n1 d1 q1 rp1).2.1 okPort
        fid2 k2 n2 d2 q2 rp2).2.1.products k1 = some ⟨fid1, k1, n1, d1, q1, rp1⟩ ∧
    mapGet (add_product (add_product s okPort fid1 k1 n1 d1 q1 rp1).2.1 okPort
        fid2 k2 n2 d2 q2 rp2).2.1.products k2 = some ⟨fid2, k2, n2, d2, q2, rp2⟩ := by
  have heq1 : add_product s okPort fid1 k1 n1 d1 q1 rp1 =
      finishProductsSave ⟨fid1, k1, n1, d1, q1, rp1⟩
        ⟨mapInsert s.products k1 ⟨fid1, k1, n1, d1, q1, rp1⟩, s.transactions⟩
        okPort := by
    rcases add_product_eq s okPort fid1 k1 n1 d1 q1 rp1 with
      ⟨hz, _⟩ | ⟨_, hz, _⟩ | ⟨_, _, hz, _⟩ | ⟨_, _, _, heq⟩
    · rw [hk1] at hz; cases hz
    · rw [hn1] at hz; cases hz
    · rw [ha1] at hz; cases hz
    · exact heq
  rw [heq1, finishProductsSave_okPort]
  have hc2 : mapContains
      (mapInsert s.products k1 ⟨fid1, k1, n1, d1, q1, rp1⟩) k2 = false := by
    rw [mapContains_mapInsert]
    simp [hne, ha2]
  have heq2 : add_product
      (⟨mapInsert s.products k1 ⟨fid1, k1, n1, d1, q1, rp1⟩, s.transactions⟩ :
        InventoryService) okPort fid2 k2 n2 d2 q2 rp2 =
      finishProductsSave ⟨fid2, k2, n2, d2, q2, rp2⟩
        ⟨mapInsert (mapInsert s.products k1 ⟨fid1, k1, n1, d1, q1, rp1⟩) k2
            ⟨fid2, k2, n2, d2, q2, rp2⟩, s.transactions⟩
        okPort := by
    rcases add_product_eq
        (⟨mapInsert s.products k1 ⟨fid1, k1, n1, d1, q1, rp1⟩, s.transactions⟩ :
          InventoryService) okPort fid2 k2 n2 d2 q2 rp2 with
      ⟨hz, _⟩ | ⟨_, hz, _⟩ | ⟨_, _, hz, _⟩ | ⟨_, _, _, heq⟩
    · rw [hk2] at hz; cases hz
    · rw [hn2] at hz; cases hz
    · rw [hc2] at hz; cases hz
    · exact heq
  refine ⟨rfl, ?_, ?_, ?_⟩
  · show (add_product _ okPort fid2 k2 n2 d2 q2 rp2).1 = _
    rw [heq2, finishProductsSave_okPort]
  · show mapGet (add_product _ okPort fid2 k2 n2 d2 q2 rp2).2.1.products k1 = _
    rw [heq2, finishProductsSave_okPort]
    show mapGet (mapInsert _ k2 _) k1 = _
    rw [mapGet_mapInsert_of_ne _ _ _ _ (fun h => hne h.symm),
      mapGet_mapInsert_self]
  · show mapGet (add_product _ okPort fid2 k2 n2 d2 q2 rp2).2.1.products k2 = _
    rw [heq2, finishProductsSave_okPort]
    show mapGet (mapInsert _ k2 _) k2 = _
    rw [mapGet_mapInsert_self]

/-- C3: whenever a mutating operation returns one of the four validation
errors (`InvalidInput`, `DuplicateSKU`, `ProductNotFound`,
`InsufficientStock`), the catalog and ledger are exactly as before the
call and no save call was issued on the storage port; in particular
`update_product` on an existing product with a name that is empty after
whitespace trimming returns `InvalidInput` and applies none of the
supplied fields, not even a supplied description or reorder point. -/
theorem C3_validation_rollback :
    (∀ (s : InventoryService) (port : Storage) (op : Op) (e : ServiceError)
        (s' : InventoryService) (cs : List SaveCall),
        step s port op = (.error e, s', cs) → isValidationError e = true →
        s' = s ∧ cs = []) ∧
    (∀ (s : InventoryService) (port : Storage) (k n : String)
        (d : Option String) (rp : Option Nat) (p : Product),
        mapGet s.products k = some p → trim_is_empty n = true →
        update_product s port k (some n) d rp =
          (.error (.InvalidInput "Name cannot be empty"), s, [])) := by
  constructor
  · intro s port op e s' cs hrun hv
    cases op with
    | addProduct fid sku n d q rp =>
      have hst : step s port (Op.addProduct fid sku n d q rp)
          = ((add_product s port fid sku n d q rp).1.map fun _ => (),
             (add_product s port fid sku n d q rp).2) := rfl
      rcases add_product_eq s port fid sku n d q rp with
        ⟨_, heq⟩ | ⟨_, _, heq⟩ | ⟨_, _, _, heq⟩ | ⟨_, _, _, heq⟩
      · rw [hst, heq] at hrun
        simp only [Except.map, Prod.mk.injEq] at hrun
        exact ⟨hrun.2.1.symm, hrun.2.2.symm⟩
      · rw [hst, heq] at hrun
        simp only [Except.map, Prod.mk.injEq] at hrun
        exact ⟨hrun.2.1.symm, hrun.2.2.symm⟩
      · rw [hst, heq] at hrun
        simp only [Except.map, Prod.mk.injEq] at hrun
        exact ⟨hrun.2.1.symm, hrun.2.2.symm⟩
      · rw [hst, heq] at hrun
        have h1 := congrArg Prod.fst hrun
        simp only at h1
        rw [except_map_error_iff] at h1
        have := finishProductsSave_error _ _ port _ h1
        rw [hv] at this
        cases this
    | updateProduct sku name d rp =>
      have hst : step s port (Op.updateProduct sku name d rp)
          = ((update_product s port sku name d rp).1.map fun _ => (),
             (update_product s port sku name d rp).2) := rfl
      rcases update_product_eq s port sku name d rp with
        ⟨_, heq⟩ | ⟨p, _, _, heq⟩ | ⟨p, _, _, heq⟩
      · rw [hst, heq] at hrun
        simp only [Except.map, Prod.mk.injEq] at hrun
        exact ⟨hrun.2.1.symm, hrun.2.2.symm⟩
      · rw [hst, heq] at hrun
        simp only [Except.map, Prod.mk.injEq] at hrun
        exact ⟨hrun.2.1.symm, hrun.2.2.symm⟩
      · rw [hst, heq] at hrun
        have h1 := congrArg Prod.fst hrun
        simp only at h1
        rw [except_map_error_iff] at h1
        have := finishProductsSave_error _ _ port _ h1
        rw [hv] at this
        cases this
    | addStock fid sku q ts notes =>
      have hst : step s port (Op.addStock fid sku q ts notes)
          = add_stock s port fid sku q ts notes := rfl
      rcases add_stock_eq s port fid sku q ts notes with
        ⟨_, heq⟩ | ⟨_, _, heq⟩ | ⟨_, _, heq⟩
      · rw [hst, heq] at hrun
        simp only [Prod.mk.injEq] at hrun
        exact ⟨hrun.2.1.symm, hrun.2.2.symm⟩
      · rw [hst, heq] at hrun
        simp only [Prod.mk.injEq] at hrun
        exact ⟨hrun.2.1.symm, hrun.2.2.symm⟩
      · rw [hst, heq] at hrun
        have h1 := congrArg Prod.fst hrun
        simp only at h1
        have := finishBothSaves_error _ port _ h1
        rw [hv] at this
        cases this
    | removeStock fid sku q ts notes =>
      have hst : step s port (Op.removeStock fid sku q ts notes)
          = remove_stock s port fid sku q ts notes := rfl
      rcases remove_stock_eq s port fid sku q ts notes with
        ⟨_, heq⟩ | ⟨_, _, heq⟩ | ⟨_, p, _, _, heq⟩ | ⟨_, p, _, _, heq⟩
      · rw [hst, heq] at hrun
        simp only [Prod.mk.injEq] at hrun
        exact ⟨hrun.2.1.symm, hrun.2.2.symm⟩
      · rw [hst, heq] at hrun
        simp only [Prod.mk.injEq] at hrun
        exact ⟨hrun.2.1.symm, hrun.2.2.symm⟩
      · rw [hst, heq] at hrun
        simp only [Prod.mk.injEq] at hrun
        exact ⟨hrun.2.1.symm, hrun.2.2.symm⟩
      · rw [hst, heq] at hrun
        have h1 := congrArg Prod.fst hrun
        simp only at h1
        have := finishBothSaves_error _ port _ h1
        rw [hv] at this
        cases this
    | deleteProduct sku =>
      have hst : step s port (Op.deleteProduct sku)
          = delete_product s port sku := rfl
      rcases delete_product_eq s port sku with ⟨_, heq⟩ | ⟨_, heq⟩
      · rw [hst, heq] at hrun
        simp only [Prod.mk.injEq] at hrun
        exact ⟨hrun.2.1.symm, hrun.2.2.symm⟩
      · rw [hst, heq] at hrun
        have h1 := congrArg Prod.fst hrun
        simp only at h1
        have := finishBothSaves_error _ port _ h1
        rw [hv] at this
        cases this
  · intro s port k n d rp p hp hn
    rcases update_product_eq s port k (some n) d rp with
      ⟨hnone, _⟩ | ⟨p2, _, _, heq⟩ | ⟨p2, _, hbad, heq⟩
    · rw [hp] at hnone
      cases hnone
    · exact heq
    · have hbad2 : trim_is_empty n = false := hbad
      rw [hn] at hbad2
      cases hbad2

/-- Witness for C3 at a concrete input. -/
theorem C3_witness :
    step emptyService okPort (Op.removeStock "t" "K" 5 0 none)
      = (.error (.ProductNotFound "K"), emptyService, []) ∧
    (emptyService = emptyService ∧ ([] : List SaveCall) = []) ∧
    mapGet sampleService.products "K" = some sampleProduct ∧
    update_product sampleService okPort "K" (some " ") (some "newdesc") (some 9)
      = (.error (.InvalidInput "Name cannot be empty"), sampleService, []) :=
  ⟨by decide,
   C3_validation_rollback.1 emptyService okPort (Op.removeStock "t" "K" 5 0 none)
     (.ProductNotFound "K") emptyService [] (by decide) (by decide),
   by decide,
   C3_validation_rollback.2 sampleService okPort "K" " " (some "newdesc") (some 9)
     sampleProduct (by decide) (by decide)⟩

/-- C4 (amended): after every successful mutating operation, the storage
port has been asked to save the full current catalog and that call
returned success; the ledger-changing operations (`add_stock`,
`remove_stock`, `delete_product`) have additionally been asked to save the
full current ledger; `add_product` and `update_product` leave the ledger
unchanged and issue no transactions save.  Every issued save call
succeeded. -/
theorem C4_saves_after_success (s : InventoryService) (port : Storage) (op : Op)
    (u : Unit) (s' : InventoryService) (cs : List SaveCall)
    (hrun : step s port op = (.ok u, s', cs)) :
    SaveCall.saveProducts (mapValues s'.products) ∈ cs ∧
    (op.touches_ledger = true → SaveCall.saveTransactions s'.transactions ∈ cs) ∧
    (op.touches_ledger = false →
      s'.transactions = s.transactions ∧ ∀ c ∈ cs, c.isTransactionsSave = false) ∧
    (∀ c ∈ cs, port c = none) := by
  cases op with
  | addProduct fid sku n d q rp =>
    have hst : step s port (Op.addProduct fid sku n d q rp)
        = ((add_product s port fid sku n d q rp).1.map fun _ => (),
           (add_product s port fid sku n d q rp).2) := rfl
    rcases add_product_eq s port fid sku n d q rp with
      ⟨_, heq⟩ | ⟨_, _, heq⟩ | ⟨_, _, _, heq⟩ | ⟨_, _, _, heq⟩
    · rw [hst, heq] at hrun
      simp [Except.map] at hrun
    · rw [hst, heq] at hrun
      simp [Except.map] at hrun
    · rw [hst, heq] at hrun
      simp [Except.map] at hrun
    · rw [hst, heq] at hrun
      have h1 := congrArg (fun x => x.1) hrun
      have h2a := congrArg (fun x => x.2.1) hrun
      have h2b := congrArg (fun x => x.2.2) hrun
      dsimp only at h1 h2a h2b
      have hex : ∃ b, (finishProductsSave (⟨fid, sku, n, d, q, rp⟩ : Product)
          ⟨mapInsert s.products sku ⟨fid, sku, n, d, q, rp⟩, s.transactions⟩
          port).1 = .ok b := by
        cases hx : (finishProductsSave (⟨fid, sku, n, d, q, rp⟩ : Product)
            ⟨mapInsert s.products sku ⟨fid, sku, n, d, q, rp⟩, s.transactions⟩
            port).1 with
        | ok b => exact ⟨b, rfl⟩
        | error e2 => rw [hx] at h1; simp [Except.map] at h1
      obtain ⟨b, hb⟩ := hex
      obtain ⟨_, hpersist⟩ := finishProductsSave_ok _ _ _ _ hb
      have hs' := h2a.symm.trans (finishProductsSave_state _ _ port)
      have hcs := h2b.symm.trans (finishProductsSave_calls _ _ port)
      subst hs'
      subst hcs
      refine ⟨List.mem_singleton.mpr rfl,
        fun h => by simp [Op.touches_ledger] at h, fun _ => ⟨rfl, ?_⟩, ?_⟩
      · intro c hc
        rw [List.mem_singleton.mp hc]
        rfl
      · intro c hc
        rw [List.mem_singleton.mp hc]
        exact hpersist
  | updateProduct sku name d rp =>
    have hst : step s port (Op.updateProduct sku name d rp)
        = ((update_product s port sku name d rp).1.map fun _ => (),
           (update_product s port sku name d rp).2) := rfl
    rcases update_product_eq s port sku name d rp with
      ⟨_, heq⟩ | ⟨p, _, _, heq⟩ | ⟨p, _, _, heq⟩
    · rw [hst, heq] at hrun
      simp [Except.map] at hrun
    · rw [hst, heq] at hrun
      simp [Except.map] at hrun
    · rw [hst, heq] at hrun
      have h1 := congrArg (fun x => x.1) hrun
      have h2a := congrArg (fun x => x.2.1) hrun
      have h2b := congrArg (fun x => x.2.2) hrun
      dsimp only at h1 h2a h2b
      have hex : ∃ b, (finishProductsSave (applyFields p name d rp)
          ⟨mapModify s.products sku (fun q0 => applyFields q0 name d rp),
           s.transactions⟩ port).1 = .ok b := by
        cases hx : (finishProductsSave (applyFields p name d rp)
            ⟨mapModify s.products sku (fun q0 => applyFields q0 name d rp),
             s.transactions⟩ port).1 with
        | ok b => exact ⟨b, rfl⟩
        | error e2 => rw [hx] at h1; simp [Except.map] at h1
      obtain ⟨b, hb⟩ := hex
      obtain ⟨_, hpersist⟩ := finishProductsSave_ok _ _ _ _ hb
      have hs' := h2a.symm.trans (finishProductsSave_state _ _ port)
      have hcs := h2b.symm.trans (finishProductsSave_calls _ _ port)
      subst hs'
      subst hcs
      refine ⟨List.mem_singleton.mpr rfl,
        fun h => by simp [Op.touches_ledger] at h, fun _ => ⟨rfl, ?_⟩, ?_⟩
      · intro c hc
        rw [List.mem_singleton.mp hc]
        rfl
      · intro c hc
        rw [List.mem_singleton.mp hc]
        exact hpersist
  | addStock fid sku q ts notes =>
    have hst : step s port (Op.addStock fid sku q ts notes)
        = add_stock s port fid sku q ts notes := rfl
    rcases add_stock_eq s port fid sku q ts notes with
      ⟨_, heq⟩ | ⟨_, _, heq⟩ | ⟨_, _, heq⟩
    · rw [hst, heq] at hrun
      simp at hrun
    · rw [hst, heq] at hrun
      simp at hrun
    · rw [hst, heq] at hrun
      have h1 := congrArg (fun x => x.1) hrun
      have h2a := congrArg (fun x => x.2.1) hrun
      have h2b := congrArg (fun x => x.2.2) hrun
      dsimp only at h1 h2a h2b
      obtain ⟨hp1, hp2⟩ := finishBothSaves_ok _ port h1
      have hs' := h2a.symm.trans (finishBothSaves_state _ port)
      have hcs := h2b.symm.trans (finishBothSaves_calls_of_ok _ port h1)
      subst hs'
      subst hcs
      refine ⟨List.mem_cons_self _ _, fun _ => ?_,
        fun h => by simp [Op.touches_ledger] at h, ?_⟩
      · exact List.mem_cons_of_mem _ (List.mem_singleton.mpr rfl)
      · intro c hc
        rcases List.mem_cons.mp hc with rfl | hc2
        · exact hp1
        · rw [List.mem_singleton.mp hc2]
          exact hp2
  | removeStock fid sku q ts notes =>
    have hst : step s port (Op.removeStock fid sku q ts notes)
        = remove_stock s port fid sku q ts notes := rfl
    rcases remove_stock_eq s port fid sku q ts notes with
      ⟨_, heq⟩ | ⟨_, _, heq⟩ | ⟨_, p, _, _, heq⟩ | ⟨_, p, _, _, heq⟩
    · rw [hst, heq] at hrun
      simp at hrun
    · rw [hst, heq] at hrun
      simp at hrun
    · rw [hst, heq] at hrun
      simp at hrun
    · rw [hst, heq] at hrun
      have h1 := congrArg (fun x => x.1) hrun
      have h2a := congrArg (fun x => x.2.1) hrun
      have h2b := congrArg (fun x => x.2.2) hrun
      dsimp only at h1 h2a h2b
      obtain ⟨hp1, hp2⟩ := finishBothSaves_ok _ port h1
      have hs' := h2a.symm.trans (finishBothSaves_state _ port)
      have hcs := h2b.symm.trans (finishBothSaves_calls_of_ok _ port h1)
      subst hs'
      subst hcs
      refine ⟨List.mem_cons_self _ _, fun _ => ?_,
        fun h => by simp [Op.touches_ledger] at h, ?_⟩
      · exact List.mem_cons_of_mem _ (List.mem_singleton.mpr rfl)
      · intro c hc
        rcases List.mem_cons.mp hc with rfl | hc2
        · exact hp1
        · rw [List.mem_singleton.mp hc2]
          exact hp2
  | deleteProduct sku =>
    have hst : step s port (Op.deleteProduct sku)
        = delete_product s port sku := rfl
    rcases delete_product_eq s port sku with ⟨_, heq⟩ | ⟨_, heq⟩
    · rw [hst, heq] at hrun
      simp at hrun
    · rw [hst, heq] at hrun
      have h1 := congrArg (fun x => x.1) hrun
      have h2a := congrArg (fun x => x.2.1) hrun
      have h2b := congrArg (fun x => x.2.2) hrun
      dsimp only at h1 h2a h2b
      obtain ⟨hp1, hp2⟩ := finishBothSaves_ok _ port h1
      have hs' := h2a.symm.trans (finishBothSaves_state _ port)
      have hcs := h2b.symm.trans (finishBothSaves_calls_of_ok _ port h1)
      subst hs'
      subst hcs
      refine ⟨List.mem_cons_self _ _, fun _ => ?_,
        fun h => by simp [Op.touches_ledger] at h, ?_⟩
      · exact List.mem_cons_of_mem _ (List.mem_singleton.mpr rfl)
      · intro c hc
        rcases List.mem_cons.mp hc with rfl | hc2
        · exact hp1
        · rw [List.mem_singleton.mp hc2]
          exact hp2

/-- Counterexample to C4 as stated: a successful `add_product` never asks
the port to save the ledger — no transactions save call is issued. -/
theorem C4_no_ledger_save_cex :
    (step emptyService okPort (Op.addProduct "p1" "SKU001" "W" "" 5 0)).1
      = .ok () ∧
    ((step emptyService okPort
        (Op.addProduct "p1" "SKU001" "W" "" 5 0)).2.2.any
      SaveCall.isTransactionsSave) = false := by decide

/-- Witness for C4 at a concrete input. -/
theorem C4_witness :
    step sampleService okPort (Op.deleteProduct "K")
      = (.ok (), emptyService,
         [SaveCall.saveProducts [], SaveCall.saveTransactions []]) ∧
    (SaveCall.saveProducts (mapValues emptyService.products)
        ∈ [SaveCall.saveProducts [], SaveCall.saveTransactions []] ∧
      ((Op.deleteProduct "K").touches_ledger = true →
        SaveCall.saveTransactions emptyService.transactions
          ∈ [SaveCall.saveProducts [], SaveCall.saveTransactions []]) ∧
      ((Op.deleteProduct "K").touches_ledger = false →
        emptyService.transactions = sampleService.transactions ∧
        ∀ c ∈ [SaveCall.saveProducts [], SaveCall.saveTransactions []],
          c.isTransactionsSave = false) ∧
      (∀ c ∈ [SaveCall.saveProducts [], SaveCall.saveTransactions []],
        okPort c = none)) :=
  ⟨by decide,
   C4_saves_after_success sampleService okPort (Op.deleteProduct "K") ()
     emptyService [SaveCall.saveProducts [], SaveCall.saveTransactions []]
     (by decide)⟩

/-- C6: `get_transactions(sku)` returns exactly the ledger transactions
whose `product_sku` equals `sku` (a permutation of the SKU-filtered
ledger), sorted ascending by timestamp, and transactions with equal
timestamps keep their ledger insertion order (the per-timestamp slices of
the output equal the corresponding slices of the insertion-ordered
ledger). -/
theorem C6_history_ordering (s : InventoryService) (k : String) :
    List.Perm (get_transactions s k)
      (s.transactions.filter fun t => t.product_sku == k) ∧
    (get_transactions s k).Pairwise tsLe ∧
    ∀ t0 : Int, ((get_transactions s k).filter fun t => t.timestamp == t0)
      = s.transactions.filter fun t => t.product_sku == k && t.timestamp == t0 := by
  unfold get_transactions
  refine ⟨perm_sortByTimestamp _, pairwise_sortByTimestamp _, fun t0 => ?_⟩
  rw [filter_ts_sortByTimestamp, List.filter_filter]
  apply List.filter_congr
  intro t _
  cases ht1 : t.product_sku == k <;> cases ht2 : t.timestamp == t0 <;> rfl

/-- C7: `get_transactions_in_range(sku, start, end)` equals
`get_transactions(sku)` filtered to `start ≤ timestamp ≤ end`, inclusive
on both endpoints. -/
theorem C7_range_filter (s : InventoryService) (k : String) (a b : Int) :
    get_transactions_in_range s k a b =
      (get_transactions s k).filter fun t =>
        decide (a ≤ t.timestamp) && decide (t.timestamp ≤ b) := by
  unfold get_transactions_in_range get_transactions
  rw [filter_sortByTimestamp, List.filter_filter]
  apply congrArg sortByTimestamp
  apply List.filter_congr
  intro t _
  cases ht1 : t.product_sku == k <;> cases ht2 : decide (a ≤ t.timestamp) <;>
      cases ht3 : decide (t.timestamp ≤ b) <;>
    rfl

/-- `update_product`'s field updates never change the `sku` field. -/
theorem applyFields_sku (p : Product) (n d : Option String) (rp : Option Nat) :
    (applyFields p n d rp).sku = p.sku := by
  unfold applyFields
  cases n <;> cases d <;> cases rp <;> rfl

/-- `update_product`'s field updates never change the `quantity` field. -/
theorem applyFields_quantity (p : Product) (n d : Option String) (rp : Option Nat) :
    (applyFields p n d rp).quantity = p.quantity := by
  unfold applyFields
  cases n <;> cases d <;> cases rp <;> rfl

theorem catalog_coherent_nil : catalog_coherent [] :=
  ⟨fun kp h => absurd h (List.not_mem_nil kp), List.nodup_nil⟩

theorem keys_mapModify (m : Catalog) (k : String) (f : Product → Product) :
    ((mapModify m k f).map fun kp => kp.1) = m.map fun kp => kp.1 := by
  unfold mapModify
  rw [List.map_map]
  apply List.map_congr_left
  intro kp _
  by_cases hk : kp.1 = k <;> simp [hk]

theorem not_mem_keys_of_not_contains (m : Catalog) (k : String)
    (hc : mapContains m k = false) : k ∉ m.map fun kp => kp.1 := by
  intro hmem
  rcases List.mem_map.mp hmem with ⟨kp, hkp, hfst⟩
  have : mapContains m k = true := by
    unfold mapContains
    rw [List.any_eq_true]
    exact ⟨kp, hkp, by simp [hfst]⟩
  rw [hc] at this
  cases this

theorem catalog_coherent_mapInsert (m : Catalog) (k : String) (v : Product)
    (hm : catalog_coherent m) (hv : v.sku = k) :
    catalog_coherent (mapInsert m k v) := by
  obtain ⟨hco, hnd⟩ := hm
  unfold mapInsert
  by_cases hc : mapContains m k
  · rw [if_pos hc]
    constructor
    · intro kp hkp
      rcases List.mem_map.mp hkp with ⟨kp0, hkp0, rfl⟩
      by_cases hk : kp0.1 = k <;> simp [hk, hv]
      exact hco kp0 hkp0
    · have hkeys : ((m.map fun kp => if kp.1 == k then (kp.1, v) else kp).map
          fun kp => kp.1) = m.map fun kp => kp.1 := by
        rw [List.map_map]
        apply List.map_congr_left
        intro kp _
        by_cases hk : kp.1 = k <;> simp [hk]
      rw [hkeys]
      exact hnd
  · rw [if_neg hc]
    constructor
    · intro kp hkp
      rcases List.mem_append.mp hkp with h | h
      · exact hco kp h
      · rw [List.mem_singleton.mp h]
        exact hv
    · rw [List.map_append, List.nodup_append]
      refine ⟨hnd, List.nodup_singleton k, ?_⟩
      intro x hx hx2
      rw [List.map_singleton] at hx2
      rw [List.mem_singleton.mp hx2] at hx
      exact not_mem_keys_of_not_contains m k (by simpa using hc) hx

theorem catalog_coherent_mapModify (m : Catalog) (k : String) (f : Product → Product)
    (hm : catalog_coherent m) (hf : ∀ p, (f p).sku = p.sku) :
    catalog_coherent (mapModify m k f) := by
  obtain ⟨hco, hnd⟩ := hm
  constructor
  · intro kp hkp
    unfold mapModify at hkp
    rcases List.mem_map.mp hkp with ⟨kp0, hkp0, rfl⟩
    by_cases hk : kp0.1 = k
    · simp [hk, hf]
      rw [hco kp0 hkp0]
      exact hk
    · simp [hk]
      exact hco kp0 hkp0
  · rw [keys_mapModify]
    exact hnd

theorem catalog_coherent_mapRemove (m : Catalog) (k : String)
    (hm : catalog_coherent m) : catalog_coherent (mapRemove m k) := by
  obtain ⟨hco, hnd⟩ := hm
  constructor
  · intro kp hkp
    exact hco kp (List.mem_of_mem_filter hkp)
  · exact hnd.sublist ((List.filter_sublist _).map _)

theorem catalog_coherent_new (ps : List Product) (ts : List Transaction) :
    catalog_coherent (InventoryService.new ps ts).products := by
  show catalog_coherent (ps.foldl (fun m p => mapInsert m p.sku p) [])
  suffices h : ∀ (l : List Product) (m : Catalog), catalog_coherent m →
      catalog_coherent (l.foldl (fun m p => mapInsert m p.sku p) m) from
    h ps [] catalog_coherent_nil
  intro l
  induction l with
  | nil => exact fun m hm => hm
  | cons p l ih =>
    intro m hm
    exact ih _ (catalog_coherent_mapInsert m p.sku p hm rfl)

/-- The catalog after any operation is the old catalog, or the old catalog
with one SKU-coherent binding inserted, one value rewritten by a
`sku`-preserving function, or one binding removed. -/
theorem step_products_cases (s : InventoryService) (port : Storage) (op : Op) :
    (step s port op).2.1.products = s.products ∨
    (∃ k v, Product.sku v = k ∧
      (step s port op).2.1.products = mapInsert s.products k v) ∨
    (∃ k f, (∀ p : Product, Product.sku (f p) = Product.sku p) ∧
      (step s port op).2.1.products = mapModify s.products k f) ∨
    (∃ k, (step s port op).2.1.products = mapRemove s.products k) := by
  cases op with
  | addProduct fid sku n d q rp =>
    have hst : (step s port (Op.addProduct fid sku n d q rp)).2.1
        = (add_product s port fid sku n d q rp).2.1 := rfl
    rcases add_product_eq s port fid sku n d q rp with
      ⟨_, heq⟩ | ⟨_, _, heq⟩ | ⟨_, _, _, heq⟩ | ⟨_, _, _, heq⟩
    · exact Or.inl (by rw [hst, heq])
    · exact Or.inl (by rw [hst, heq])
    · exact Or.inl (by rw [hst, heq])
    · refine Or.inr (Or.inl ⟨sku, ⟨fid, sku, n, d, q, rp⟩, rfl, ?_⟩)
      rw [hst, heq, finishProductsSave_state]
  | updateProduct sku name d rp =>
    have hst : (step s port (Op.updateProduct sku name d rp)).2.1
        = (update_product s port sku name d rp).2.1 := rfl
    rcases update_product_eq s port sku name d rp with
      ⟨_, heq⟩ | ⟨p, _, _, heq⟩ | ⟨p, _, _, heq⟩
    · exact Or.inl (by rw [hst, heq])
    · exact Or.inl (by rw [hst, heq])
    · refine Or.inr (Or.inr (Or.inl
        ⟨sku, fun q0 => applyFields q0 name d rp,
         fun p0 => applyFields_sku p0 name d rp, ?_⟩))
      rw [hst, heq, finishProductsSave_state]
  | addStock fid sku q ts notes =>
    have hst : (step s port (Op.addStock fid sku q ts notes)).2.1
        = (add_stock s port fid sku q ts notes).2.1 := rfl
    rcases add_stock_eq s port fid sku q ts notes with
      ⟨_, heq⟩ | ⟨_, _, heq⟩ | ⟨_, _, heq⟩
    · exact Or.inl (by rw [hst, heq])
    · exact Or.inl (by rw [hst, heq])
    · refine Or.inr (Or.inr (Or.inl
        ⟨sku, fun p0 => { p0 with quantity := (p0.quantity + q) % u32Mod },
         fun _ => rfl, ?_⟩))
      rw [hst, heq, finishBothSaves_state]
  | removeStock fid sku q ts notes =>
    have hst : (step s port (Op.removeStock fid sku q ts notes)).2.1
        = (remove_stock s port fid sku q ts notes).2.1 := rfl
    rcases remove_stock_eq s port fid sku q ts notes with
      ⟨_, heq⟩ | ⟨_, _, heq⟩ | ⟨_, p, _, _, heq⟩ | ⟨_, p, _, _, heq⟩
    · exact Or.inl (by rw [hst, heq])
    · exact Or.inl (by rw [hst, heq])
    · exact Or.inl (by rw [hst, heq])
    · refine Or.inr (Or.inr (Or.inl
        ⟨sku, fun q0 => { q0 with quantity := q0.quantity - q },
         fun _ => rfl, ?_⟩))
      rw [hst, heq, finishBothSaves_state]
  | deleteProduct sku =>
    have hst : (step s port (Op.deleteProduct sku)).2.1
        = (delete_product s port sku).2.1 := rfl
    rcases delete_product_eq s port sku with ⟨_, heq⟩ | ⟨_, heq⟩
    · exact Or.inl (by rw [hst, heq])
    · refine Or.inr (Or.inr (Or.inr ⟨sku, ?_⟩))
      rw [hst, heq, finishBothSaves_state]

/-- C9: catalog key coherence — `new` establishes that every key of the
SKU-indexed map equals the `sku` field of the product under it with
pairwise-distinct keys, and every operation (under any storage port, on
success or failure) preserves this, since no operation mutates a stored
product's `sku`. -/
theorem C9_catalog_coherence :
    (∀ (ps : List Product) (ts : List Transaction),
      catalog_coherent (InventoryService.new ps ts).products) ∧
    (∀ (s : InventoryService) (port : Storage) (op : Op),
      catalog_coherent s.products →
      catalog_coherent (step s port op).2.1.products) := by
  refine ⟨catalog_coherent_new, fun s port op hm => ?_⟩
  rcases step_products_cases s port op with
    h | ⟨k, v, hv, h⟩ | ⟨k, f, hf, h⟩ | ⟨k, h⟩
  · rw [h]; exact hm
  · rw [h]; exact catalog_coherent_mapInsert _ k v hm hv
  · rw [h]; exact catalog_coherent_mapModify _ k f hm hf
  · rw [h]; exact catalog_coherent_mapRemove _ k hm

/-- Witness for C9 at a concrete input. -/
theorem C9_witness :
    catalog_coherent sampleService.products ∧
    catalog_coherent
      (step sampleService okPort (Op.addStock "t" "K" 2 0 none)).2.1.products :=
  ⟨by constructor
      · intro kp hkp
        rcases List.mem_singleton.mp hkp with rfl
        rfl
      · decide,
   C9_catalog_coherence.2 sampleService okPort (Op.addStock "t" "K" 2 0 none)
     (by constructor
         · intro kp hkp
           rcases List.mem_singleton.mp hkp with rfl
           rfl
         · decide)⟩

/-- Witness for C10: `"SKU001"` and `" SKU001"` coexist as distinct
catalog entries. -/
theorem C10_witness :
    trim_is_empty " SKU001" = false ∧
    ((add_product emptyService okPort "id1" "SKU001" "W1" "" 5 0).1
        = .ok ⟨"id1", "SKU001", "W1", "", 5, 0⟩ ∧
      (add_product (add_product emptyService okPort "id1" "SKU001" "W1" "" 5 0).2.1
          okPort "id2" " SKU001" "W2" "" 7 0).1
        = .ok ⟨"id2", " SKU001", "W2", "", 7, 0⟩ ∧
      mapGet (add_product
          (add_product emptyService okPort "id1" "SKU001" "W1" "" 5 0).2.1
          okPort "id2" " SKU001" "W2" "" 7 0).2.1.products "SKU001"
        = some ⟨"id1", "SKU001", "W1", "", 5, 0⟩ ∧
      mapGet (add_product
          (add_product emptyService okPort "id1" "SKU001" "W1" "" 5 0).2.1
          okPort "id2" " SKU001" "W2" "" 7 0).2.1.products " SKU001"
        = some ⟨"id2", " SKU001", "W2", "", 7, 0⟩) :=
  ⟨by decide,
   C10_sku_verbatim emptyService "id1" "id2" "SKU001" " SKU001" "W1" "W2" "" ""
     5 7 0 0 (by decide) (by decide) (by decide) (by decide) (by decide)
     (by decide) (by decide)⟩

/-!  ## Traces of successful operations from the empty store  -/

theorem runOps_nil (s : InventoryService) : runOps s [] = some s := rfl

theorem runOps_cons (s : InventoryService) (op : Op) (ops : List Op) :
    runOps s (op :: ops) =
      match applyOp s op with
      | some s' => runOps s' ops
      | none => none := rfl

theorem runOps_append (s : InventoryService) (l1 l2 : List Op) :
    runOps s (l1 ++ l2) = (runOps s l1).bind fun s2 => runOps s2 l2 := by
  induction l1 generalizing s with
  | nil => rfl
  | cons op l1 ih =>
    rw [List.cons_append, runOps_cons, runOps_cons]
    cases h : applyOp s op with
    | none => rfl
    | some s2 => exact ih s2

theorem applyOp_addProduct (s : InventoryService) (fid sku n d : String)
    (q rp : Nat) (s' : InventoryService)
    (h : applyOp s (Op.addProduct fid sku n d q rp) = some s') :
    trim_is_empty sku = false ∧ trim_is_empty n = false ∧
    mapContains s.products sku = false ∧
    s' = ⟨mapInsert s.products sku ⟨fid, sku, n, d, q, rp⟩, s.transactions⟩ := by
  unfold applyOp at h
  have hst : step s okPort (Op.addProduct fid sku n d q rp)
      = ((add_product s okPort fid sku n d q rp).1.map fun _ => (),
         (add_product s okPort fid sku n d q rp).2) := rfl
  rcases add_product_eq s okPort fid sku n d q rp with
    ⟨h1, heq⟩ | ⟨h1, h2, heq⟩ | ⟨h1, h2, h3, heq⟩ | ⟨h1, h2, h3, heq⟩
  · rw [hst, heq] at h
    simp [Except.map] at h
  · rw [hst, heq] at h
    simp [Except.map] at h
  · rw [hst, heq] at h
    simp [Except.map] at h
  · rw [hst, heq, finishProductsSave_okPort] at h
    simp [Except.map] at h
    exact ⟨h1, h2, h3, h.symm⟩

theorem applyOp_updateProduct (s : InventoryService) (sku : String)
    (name d : Option String) (rp : Option Nat) (s' : InventoryService)
    (h : applyOp s (Op.updateProduct sku name d rp) = some s') :
    (∃ p, mapGet s.products sku = some p) ∧
    s' = ⟨mapModify s.products sku (fun q0 => applyFields q0 name d rp),
          s.transactions⟩ := by
  unfold applyOp at h
  have hst : step s okPort (Op.updateProduct sku name d rp)
      = ((update_product s okPort sku name d rp).1.map fun _ => (),
         (update_product s okPort sku name d rp).2) := rfl
  rcases update_product_eq s okPort sku name d rp with
    ⟨_, heq⟩ | ⟨p, _, _, heq⟩ | ⟨p, hp, _, heq⟩
  · rw [hst, heq] at h
    simp [Except.map] at h
  · rw [hst, heq] at h
    simp [Except.map] at h
  · rw [hst, heq, finishProductsSave_okPort] at h
    simp [Except.map] at h
    exact ⟨⟨p, hp⟩, h.symm⟩

theorem applyOp_addStock (s : InventoryService) (fid sku : String) (q : Nat)
    (ts : Int) (notes : Option String) (s' : InventoryService)
    (h : applyOp s (Op.addStock fid sku q ts notes) = some s') :
    (q == 0) = false ∧ (∃ p, mapGet s.products sku = some p) ∧
    s' = ⟨mapModify s.products sku
            (fun p0 => { p0 with quantity := (p0.quantity + q) % u32Mod }),
          s.transactions ++ [⟨fid, sku, TransactionType.Addition, q, ts, notes⟩]⟩ := by
  unfold applyOp at h
  have hst : step s okPort (Op.addStock fid sku q ts notes)
      = add_stock s okPort fid sku q ts notes := rfl
  rcases add_stock_eq s okPort fid sku q ts notes with
    ⟨_, heq⟩ | ⟨_, _, heq⟩ | ⟨h0, hex, heq⟩
  · rw [hst, heq] at h
    simp at h
  · rw [hst, heq] at h
    simp at h
  · rw [hst, heq, finishBothSaves_okPort] at h
    simp at h
    exact ⟨h0, hex, h.symm⟩

theorem applyOp_removeStock (s : InventoryService) (fid sku : String) (q : Nat)
    (ts : Int) (notes : Option String) (s' : InventoryService)
    (h : applyOp s (Op.removeStock fid sku q ts notes) = some s') :
    (q == 0) = false ∧
    (∃ p, mapGet s.products sku = some p ∧ ¬ p.quantity < q) ∧
    s' = ⟨mapModify s.products sku
            (fun q0 => { q0 with quantity := q0.quantity - q }),
          s.transactions ++ [⟨fid, sku, TransactionType.Removal, q, ts, notes⟩]⟩ := by
  unfold applyOp at h
  have hst : step s okPort (Op.removeStock fid sku q ts notes)
      = remove_stock s okPort fid sku q ts notes := rfl
  rcases remove_stock_eq s okPort fid sku q ts notes with
    ⟨_, heq⟩ | ⟨_, _, heq⟩ | ⟨_, p, _, _, heq⟩ | ⟨h0, p, hp, hge, heq⟩
  · rw [hst, heq] at h
    simp at h
  · rw [hst, heq] at h
    simp at h
  · rw [hst, heq] at h
    simp at h
  · rw [hst, heq, finishBothSaves_okPort] at h
    simp at h
    exact ⟨h0, ⟨p, hp, hge⟩, h.symm⟩

theorem applyOp_deleteProduct (s : InventoryService) (sku : String)
    (s' : InventoryService) (h : applyOp s (Op.deleteProduct sku) = some s') :
    mapContains s.products sku = true ∧
    s' = ⟨mapRemove s.products sku,
          s.transactions.filter fun t => !(t.product_sku == sku)⟩ := by
  unfold applyOp at h
  have hst : step s okPort (Op.deleteProduct sku)
      = delete_product s okPort sku := rfl
  rcases delete_product_eq s okPort sku with ⟨_, heq⟩ | ⟨hc, heq⟩
  · rw [hst, heq] at h
    simp at h
  · rw [hst, heq, finishBothSaves_okPort] at h
    simp at h
    exact ⟨hc, h.symm⟩

theorem no_orphans_empty : no_orphans emptyService :=
  fun t ht => absurd ht (List.not_mem_nil t)

theorem no_orphans_applyOp (s : InventoryService) (op : Op)
    (s' : InventoryService) (h : applyOp s op = some s') (hno : no_orphans s) :
    no_orphans s' := by
  cases op with
  | addProduct fid sku n d q rp =>
    obtain ⟨_, _, _, rfl⟩ := applyOp_addProduct s fid sku n d q rp s' h
    intro t ht
    rw [mapContains_mapInsert]
    simp [hno t ht]
  | updateProduct sku name d rp =>
    obtain ⟨_, rfl⟩ := applyOp_updateProduct s sku name d rp s' h
    intro t ht
    rw [mapContains_mapModify]
    exact hno t ht
  | addStock fid sku q ts notes =>
    obtain ⟨_, ⟨p, hp⟩, rfl⟩ := applyOp_addStock s fid sku q ts notes s' h
    intro t ht
    rw [mapContains_mapModify]
    rcases List.mem_append.mp ht with ht1 | ht2
    · exact hno t ht1
    · rw [List.mem_singleton.mp ht2]
      rw [mapContains_eq_isSome, hp]
      rfl
  | removeStock fid sku q ts notes =>
    obtain ⟨_, ⟨p, hp, _⟩, rfl⟩ := applyOp_removeStock s fid sku q ts notes s' h
    intro t ht
    rw [mapContains_mapModify]
    rcases List.mem_append.mp ht with ht1 | ht2
    · exact hno t ht1
    · rw [List.mem_singleton.mp ht2]
      rw [mapContains_eq_isSome, hp]
      rfl
  | deleteProduct sku =>
    obtain ⟨_, rfl⟩ := applyOp_deleteProduct s sku s' h
    intro t ht
    have htm := List.mem_of_mem_filter ht
    have htne : t.product_sku ≠ sku := by
      have := List.of_mem_filter ht
      simpa using this
    rw [mapContains_mapRemove_of_ne _ _ _ htne]
    exact hno t htm

theorem no_orphans_runOps (s : InventoryService) (ops : List Op)
    (s' : InventoryService) (h : runOps s ops = some s') (hno : no_orphans s) :
    no_orphans s' := by
  induction ops generalizing s with
  | nil => rw [runOps_nil] at h; rw [← Option.some.inj h]; exact hno
  | cons op ops ih =>
    rw [runOps_cons] at h
    cases h2 : applyOp s op with
    | none => rw [h2] at h; cases h
    | some s2 =>
      rw [h2] at h
      exact ih s2 h (no_orphans_applyOp s op s2 h2 hno)

theorem no_txns_of_absent (s : InventoryService) (k : String)
    (hno : no_orphans s) (habs : mapContains s.products k = false) :
    ∀ t ∈ s.transactions, t.product_sku ≠ k := by
  intro t ht hk
  have := hno t ht
  rw [hk, habs] at this
  cases this

theorem modeq_add_stock (M a r q0 ad q : Nat) (h : Nat.ModEq M (a + r) (q0 + ad)) :
    Nat.ModEq M ((a + q) % M + (r + 0)) (q0 + (ad + q)) := by
  calc (a + q) % M + (r + 0)
      ≡ a + q + (r + 0) [MOD M] := Nat.ModEq.add_right _ (Nat.mod_modEq _ _)
    _ = a + r + q := by omega
    _ ≡ q0 + ad + q [MOD M] := Nat.ModEq.add_right q h
    _ = q0 + (ad + q) := by omega

theorem modeq_remove_stock (M a r q0 ad q : Nat) (hq : q ≤ a)
    (h : Nat.ModEq M (a + r) (q0 + ad)) :
    Nat.ModEq M (a - q + (r + q)) (q0 + (ad + 0)) := by
  have e1 : a - q + (r + q) = a + r := by omega
  have e2 : q0 + (ad + 0) = q0 + ad := by omega
  rw [e1, e2]
  exact h

theorem conserves_applyOp (k : String) (q0 : Nat) (s : InventoryService)
    (op : Op) (s' : InventoryService) (h : applyOp s op = some s')
    (hdel : op ≠ Op.deleteProduct k) (hc : conserves k q0 s) :
    conserves k q0 s' := by
  obtain ⟨p, hp, hmod⟩ := hc
  cases op with
  | addProduct fid sku n d q rp =>
    obtain ⟨_, _, h3, rfl⟩ := applyOp_addProduct s fid sku n d q rp s' h
    have hkne : k ≠ sku := by
      intro hkk
      rw [← hkk, mapContains_eq_isSome, hp] at h3
      simp at h3
    exact ⟨p, by rw [mapGet_mapInsert_of_ne _ _ _ _ hkne]; exact hp, hmod⟩
  | updateProduct sku name d rp =>
    obtain ⟨⟨p2, hp2⟩, rfl⟩ := applyOp_updateProduct s sku name d rp s' h
    by_cases hk : k = sku
    · subst hk
      refine ⟨applyFields p name d rp, ?_, ?_⟩
      · rw [mapGet_mapModify_self, hp]
        rfl
      · dsimp only
        rw [applyFields_quantity]
        exact hmod
    · exact ⟨p, by rw [mapGet_mapModify_of_ne _ _ _ _ hk]; exact hp, hmod⟩
  | addStock fid sku q ts notes =>
    obtain ⟨_, ⟨p2, hp2⟩, rfl⟩ := applyOp_addStock s fid sku q ts notes s' h
    by_cases hk : k = sku
    · subst hk
      have eR : quantity_sum k TransactionType.Removal
          [⟨fid, k, TransactionType.Addition, q, ts, notes⟩] = 0 := by
        rw [quantity_sum_singleton]
        simp
      have eA : quantity_sum k TransactionType.Addition
          [⟨fid, k, TransactionType.Addition, q, ts, notes⟩] = q := by
        rw [quantity_sum_singleton]
        simp
      refine ⟨{ p with quantity := (p.quantity + q) % u32Mod }, ?_, ?_⟩
      · rw [mapGet_mapModify_self, hp]
        rfl
      · dsimp only
        rw [quantity_sum_append, quantity_sum_append, eR, eA]
        exact modeq_add_stock u32Mod p.quantity _ q0 _ q hmod
    · have hskne : sku ≠ k := fun hh => hk hh.symm
      have eR : quantity_sum k TransactionType.Removal
          [⟨fid, sku, TransactionType.Addition, q, ts, notes⟩] = 0 := by
        rw [quantity_sum_singleton]
        simp [hskne]
      have eA : quantity_sum k TransactionType.Addition
          [⟨fid, sku, TransactionType.Addition, q, ts, notes⟩] = 0 := by
        rw [quantity_sum_singleton]
        simp [hskne]
      refine ⟨p, ?_, ?_⟩
      · rw [mapGet_mapModify_of_ne _ _ _ _ hk]
        exact hp
      · dsimp only
        rw [quantity_sum_append, quantity_sum_append, eR, eA, Nat.add_zero,
          Nat.add_zero]
        exact hmod
  | removeStock fid sku q ts notes =>
    obtain ⟨_, ⟨p2, hp2, hge⟩, rfl⟩ := applyOp_removeStock s fid sku q ts notes s' h
    by_cases hk : k = sku
    · subst hk
      have hpp : p2 = p := by
        rw [hp] at hp2
        exact (Option.some.inj hp2).symm
      rw [hpp] at hge
      have hle : q ≤ p.quantity := Nat.le_of_not_lt hge
      have eR : quantity_sum k TransactionType.Removal
          [⟨fid, k, TransactionType.Removal, q, ts, notes⟩] = q := by
        rw [quantity_sum_singleton]
        simp
      have eA : quantity_sum k TransactionType.Addition
          [⟨fid, k, TransactionType.Removal, q, ts, notes⟩] = 0 := by
        rw [quantity_sum_singleton]
        simp
      refine ⟨{ p with quantity := p.quantity - q }, ?_, ?_⟩
      · rw [mapGet_mapModify_self, hp]
        rfl
      · dsimp only
        rw [quantity_sum_append, quantity_sum_append, eR, eA]
        exact modeq_remove_stock u32Mod p.quantity _ q0 _ q hle hmod
    · have hskne : sku ≠ k := fun hh => hk hh.symm
      have eR : quantity_sum k TransactionType.Removal
          [⟨fid, sku, TransactionType.Removal, q, ts, notes⟩] = 0 := by
        rw [quantity_sum_singleton]
        simp [hskne]
      have eA : quantity_sum k TransactionType.Addition
          [⟨fid, sku, TransactionType.Removal, q, ts, notes⟩] = 0 := by
        rw [quantity_sum_singleton]
        simp [hskne]
      refine ⟨p, ?_, ?_⟩
      · rw [mapGet_mapModify_of_ne _ _ _ _ hk]
        exact hp
      · dsimp only
        rw [quantity_sum_append, quantity_sum_append, eR, eA, Nat.add_zero,
          Nat.add_zero]
        exact hmod
  | deleteProduct sku =>
    have hkne : k ≠ sku := by
      intro hkk
      exact hdel (by rw [hkk])
    obtain ⟨_, rfl⟩ := applyOp_deleteProduct s sku s' h
    refine ⟨p, ?_, ?_⟩
    · rw [mapGet_mapRemove_of_ne _ _ _ hkne]
      exact hp
    · dsimp only
      rw [quantity_sum_filter_ne _ _ _ _ hkne, quantity_sum_filter_ne _ _ _ _ hkne]
      exact hmod

theorem conserves_runOps (k : String) (q0 : Nat) (s : InventoryService)
    (ops : List Op) (s' : InventoryService) (h : runOps s ops = some s')
    (hdel : ∀ op ∈ ops, op ≠ Op.deleteProduct k) (hc : conserves k q0 s) :
    conserves k q0 s' := by
  induction ops generalizing s with
  | nil =>
    rw [runOps_nil] at h
    rw [← Option.some.inj h]
    exact hc
  | cons op ops ih =>
    rw [runOps_cons] at h
    cases h2 : applyOp s op with
    | none => rw [h2] at h; cases h
    | some s2 =>
      rw [h2] at h
      exact ih s2 h (fun o ho => hdel o (List.mem_cons_of_mem op ho))
        (conserves_applyOp k q0 s op s2 h2 (hdel op (List.mem_cons_self op ops)) hc)

theorem conserves_after_add (s : InventoryService) (fid k n d : String)
    (q0 rp : Nat) (s' : InventoryService) (hno : no_orphans s)
    (h : applyOp s (Op.addProduct fid k n d q0 rp) = some s') :
    conserves k q0 s' := by
  obtain ⟨_, _, h3, rfl⟩ := applyOp_addProduct s fid k n d q0 rp s' h
  refine ⟨⟨fid, k, n, d, q0, rp⟩, ?_, ?_⟩
  · exact mapGet_mapInsert_self s.products k _
  · dsimp only
    rw [quantity_sum_eq_zero k TransactionType.Removal s.transactions
        (no_txns_of_absent s k hno h3),
      quantity_sum_eq_zero k TransactionType.Addition s.transactions
        (no_txns_of_absent s k hno h3)]

/-- C1 (amended): for every sequence of successful service operations run
from the empty store, and every product added by `add_product` and never
deleted afterwards, the product's current quantity satisfies
`quantity + Σ(Removal.quantity) ≡ initial_quantity + Σ(Addition.quantity)
(mod 2^32)` over the ledger transactions for its SKU — the conservation
identity holds modulo the `u32` wrap-around of `add_stock`; the exact
integer identity can fail when an addition overflows the quantity type. -/
theorem C1_ledger_conservation (pre post : List Op) (fid k n d : String)
    (q0 rp : Nat) (s' : InventoryService)
    (hrun : runOps emptyService
        (pre ++ Op.addProduct fid k n d q0 rp :: post) = some s')
    (hdel : ∀ op ∈ post, op ≠ Op.deleteProduct k) :
    conserves k q0 s' := by
  rw [runOps_append] at hrun
  cases h1 : runOps emptyService pre with
  | none =>
    rw [h1] at hrun
    simp at hrun
  | some s1 =>
    rw [h1] at hrun
    have hrun2 : runOps s1 (Op.addProduct fid k n d q0 rp :: post) = some s' := hrun
    rw [runOps_cons] at hrun2
    cases h2 : applyOp s1 (Op.addProduct fid k n d q0 rp) with
    | none => rw [h2] at hrun2; cases hrun2
    | some s2 =>
      rw [h2] at hrun2
      exact conserves_runOps k q0 s2 post s' hrun2 hdel
        (conserves_after_add s1 fid k n d q0 rp s2
          (no_orphans_runOps emptyService pre s1 h1 no_orphans_empty) h2)

/-- Counterexample to C1 as stated: adding a product with initial quantity
`u32::MAX` and then adding 1 unit of stock is a sequence of successful
operations, the product is never deleted, yet its quantity is `0` while
`initial_quantity + Σ(Addition) − Σ(Removal) = 4294967296`. -/
theorem C1_overflow_cex :
    (runOps emptyService
      [Op.addProduct "p1" "K" "W" "" 4294967295 0,
       Op.addStock "t1" "K" 1 0 none]).map
      (fun s => (mapGet s.products "K").map Product.quantity) = some (some 0) ∧
    (runOps emptyService
      [Op.addProduct "p1" "K" "W" "" 4294967295 0,
       Op.addStock "t1" "K" 1 0 none]).map
      (fun s => 4294967295
        + quantity_sum "K" TransactionType.Addition s.transactions
        - quantity_sum "K" TransactionType.Removal s.transactions)
      = some 4294967296 ∧
    (0 : Nat) ≠ 4294967296 := by decide

/-- Witness for C1 at a concrete trace. -/
theorem C1_witness :
    runOps emptyService
        ([] ++ Op.addProduct "p1" "K" "W" "" 5 0 ::
          [Op.addStock "t1" "K" 3 0 none, Op.removeStock "t2" "K" 2 1 none])
      = some c1FinalState ∧
    conserves "K" 5 c1FinalState :=
  ⟨by decide,
   C1_ledger_conservation []
     [Op.addStock "t1" "K" 3 0 none, Op.removeStock "t2" "K" 2 1 none]
     "p1" "K" "W" "" 5 0 c1FinalState (by decide) (by decide)⟩

end StockControl
